import Mathlib

/-!
Verification of the HTTP processing core of a reverse proxy (haproxy),
against its natural-language specification.

Shallow embedding conventions:
* bytes are `Nat` values in `[0, 256)`; buffers are `List Nat`;
* C `unsigned int` arithmetic is `Nat` with explicit `% 2^32` where overflow
  matters, C signed 32-bit values are reconstructed with an explicit
  two's-complement reinterpretation;
* each embedded function keeps the source function's name where Lean allows;
* functions of the repository whose source file is not available (only their
  callers are) are modelled from the specification and say so in their doc
  comment.
-/

namespace Haproxy

/-! ## Byte-class tables (src: proto_http.c, `http_is_spht` .. `http_is_ver_token`) -/

/-- Table `http_is_spht`: space and horizontal tab. -/
def http_is_spht (c : Nat) : Bool := c = 32 || c = 9

/-- Table `http_is_crlf`: CR and LF. -/
def http_is_crlf (c : Nat) : Bool := c = 13 || c = 10

/-- Table `http_is_lws`: SP, HT, CR, LF. -/
def http_is_lws (c : Nat) : Bool := http_is_spht c || http_is_crlf c

/-- Table `http_is_sep`: the RFC 2616 separators, exactly the characters set
to 1 in the C table: ( ) < > @ , ; : " / [ ] brace pairs ? = SP HT backslash. -/
def http_is_sep (c : Nat) : Bool :=
  c = 40 || c = 41 || c = 60 || c = 62 || c = 64 || c = 44 || c = 59 ||
  c = 58 || c = 34 || c = 47 || c = 91 || c = 93 || c = 123 || c = 125 ||
  c = 63 || c = 61 || c = 32 || c = 9 || c = 92

/-- Table `http_is_token`: printable ASCII that is neither a separator nor a
CTL; this reproduces the explicit C table entry by entry. -/
def http_is_token (c : Nat) : Bool :=
  33 ≤ c && c ≤ 126 && !http_is_sep c

/-- Table `http_is_ver_token`: characters of an HTTP version token:
digits, dot, slash, H, P, T. -/
def http_is_ver_token (c : Nat) : Bool :=
  c = 46 || c = 47 || (48 ≤ c && c ≤ 57) || c = 72 || c = 80 || c = 84

/-! ## `http_emit_chunk_size` (src: compression.c)

```
int http_emit_chunk_size(char *out, unsigned int chksz, int add_crlf)
{
        int shift;
        int pos = 0;
        for (shift = 20; shift >= 0; shift -= 4)
                out[pos++] = hextab[(chksz >> shift) & 0xF];
        do {
                out[pos++] = '\r';
                out[pos++] = '\n';
        } while (--add_crlf >= 0);
        return pos;
}
```
-/

/-- Modelled from the spec: `hextab` lives in a source file not provided
(standard.c); it maps a nibble to its lowercase hexadecimal ASCII code. -/
def hextab (n : Nat) : Nat := if n < 10 then 48 + n else 87 + n

/-- The six nibble extractions of the `for (shift = 20; ...)` loop, most
significant nibble of the low 24 bits first. -/
def emitHexDigits (chksz : Nat) : List Nat :=
  [20, 16, 12, 8, 4, 0].map (fun shift => hextab ((chksz >>> shift) % 16))

/-- The `do { '\r'; '\n' } while (--add_crlf >= 0)` loop writes one CRLF pair
per iteration; the do-while runs `n + 1` times where `n = max add_crlf 0`. -/
def emitCrlfs : Nat → List Nat
  | 0 => [13, 10]
  | n + 1 => 13 :: 10 :: emitCrlfs n

/-- Embedding of `http_emit_chunk_size`: the bytes written to `out`.
`add_crlf` is the C `int` argument. The return value `pos` is the length of
this list. -/
def http_emit_chunk_size (chksz : Nat) (add_crlf : Int) : List Nat :=
  emitHexDigits chksz ++ emitCrlfs add_crlf.toNat

/-- Return value of `http_emit_chunk_size` (the final `pos`). -/
def http_emit_chunk_size_ret (chksz : Nat) (add_crlf : Int) : Nat :=
  (http_emit_chunk_size chksz add_crlf).length

/-- Decimal/hex rendering reference: the 6-digit zero-padded lowercase hex
rendering of a value below 2^24, written as the list of its nibbles from most
significant to least. -/
def hex6 (v : Nat) : List Nat :=
  [hextab (v / 16 ^ 5 % 16), hextab (v / 16 ^ 4 % 16), hextab (v / 16 ^ 3 % 16),
   hextab (v / 16 ^ 2 % 16), hextab (v / 16 ^ 1 % 16), hextab (v / 16 ^ 0 % 16)]

/-- Value decoded back from the six emitted hex digits. -/
def hex6val (l : List Nat) : Nat :=
  l.foldl (fun acc d => acc * 16 + (if d ≥ 97 then d - 87 else d - 48)) 0

theorem emitCrlfs_length (n : Nat) : (emitCrlfs n).length = 2 * (n + 1) := by
  induction n with
  | zero => rfl
  | succ k ih => simp [emitCrlfs, ih]; ring

theorem emitHexDigits_eq_hex6 (chksz : Nat) :
    emitHexDigits chksz = hex6 (chksz % 2 ^ 24) := by
  simp only [emitHexDigits, List.map, hex6, Nat.shiftRight_eq_div_pow, List.cons.injEq, and_true]
  norm_num
  refine ⟨?_, ?_, ?_, ?_, ?_⟩ <;> · congr 1; omega

theorem emitCrlfs_eq_replicate (n : Nat) :
    emitCrlfs n = (List.replicate (n + 1) ([13, 10] : List Nat)).flatten := by
  induction n with
  | zero => rfl
  | succ k ih => simp [emitCrlfs, ih, List.replicate_succ]

theorem hex6val_hex6 (v : Nat) (h : v < 2 ^ 24) : hex6val (hex6 v) = v := by
  have key : ∀ d : Nat, d < 16 →
      (if 97 ≤ hextab d then hextab d - 87 else hextab d - 48) = d := by
    intro d hd
    unfold hextab
    split_ifs <;> omega
  simp only [hex6val, hex6, List.foldl]
  rw [show ∀ x : Nat, (if x ≥ 97 then x - 87 else x - 48) = (if 97 ≤ x then x - 87 else x - 48)
        from fun x => rfl]
  rw [key _ (Nat.mod_lt _ (by norm_num)), key _ (Nat.mod_lt _ (by norm_num)),
      key _ (Nat.mod_lt _ (by norm_num)), key _ (Nat.mod_lt _ (by norm_num)),
      key _ (Nat.mod_lt _ (by norm_num)), key _ (Nat.mod_lt _ (by norm_num))]
  norm_num
  omega

/-- C4: for every size below 16 MiB (2^24) and every `add_crlf ≥ 0`,
`http_emit_chunk_size` writes exactly the six left-zero-padded hexadecimal
digits of the size, followed by `add_crlf + 1` CRLF sequences, and its return
value is `6 + 2 * (add_crlf + 1)`. -/
theorem claim_C4_emit_chunk_size (chksz : Nat) (add_crlf : Int)
    (h1 : chksz < 2 ^ 24) (h2 : 0 ≤ add_crlf) :
    http_emit_chunk_size chksz add_crlf
      = hex6 chksz ++ (List.replicate (add_crlf.toNat + 1) ([13, 10] : List Nat)).flatten ∧
    http_emit_chunk_size_ret chksz add_crlf = 6 + 2 * (add_crlf.toNat + 1) := by
  constructor
  · rw [http_emit_chunk_size, emitHexDigits_eq_hex6, Nat.mod_eq_of_lt h1,
        emitCrlfs_eq_replicate]
  · simp [http_emit_chunk_size_ret, http_emit_chunk_size, emitHexDigits,
          emitCrlfs_length]
    omega

/-- Witness for C4 at size 5 with two extra CRLFs. -/
theorem claim_C4_witness :
    http_emit_chunk_size 5 2
      = hex6 5 ++ (List.replicate ((2 : Int).toNat + 1) ([13, 10] : List Nat)).flatten ∧
    http_emit_chunk_size_ret 5 2 = 6 + 2 * ((2 : Int).toNat + 1) :=
  claim_C4_emit_chunk_size 5 2 (by norm_num) (by norm_num)

/-- C10: for every size ≥ 16 MiB, `http_emit_chunk_size` silently emits the
header it would emit for `size % 2^24`: the digits decode to the low 24 bits,
which differ from the requested size, and nothing in the output or the return
value distinguishes the two calls. -/
theorem claim_C10_truncation (chksz : Nat) (add_crlf : Int) (h : 2 ^ 24 ≤ chksz) :
    http_emit_chunk_size chksz add_crlf = http_emit_chunk_size (chksz % 2 ^ 24) add_crlf ∧
    hex6val (emitHexDigits chksz) = chksz % 2 ^ 24 ∧
    chksz % 2 ^ 24 ≠ chksz := by
  refine ⟨?_, ?_, ?_⟩
  · unfold http_emit_chunk_size
    rw [emitHexDigits_eq_hex6, emitHexDigits_eq_hex6, Nat.mod_mod_of_dvd _ dvd_rfl]
  · rw [emitHexDigits_eq_hex6, hex6val_hex6 _ (Nat.mod_lt _ (by norm_num))]
  · have := Nat.mod_lt chksz (show 0 < 2 ^ 24 by norm_num)
    omega

/-- Witness for C10 at size 2^24 + 3. -/
theorem claim_C10_witness :
    http_emit_chunk_size (2 ^ 24 + 3) 0 = http_emit_chunk_size ((2 ^ 24 + 3) % 2 ^ 24) 0 ∧
    hex6val (emitHexDigits (2 ^ 24 + 3)) = (2 ^ 24 + 3) % 2 ^ 24 ∧
    (2 ^ 24 + 3) % 2 ^ 24 ≠ 2 ^ 24 + 3 :=
  claim_C10_truncation (2 ^ 24 + 3) 0 (by norm_num)

/-! ## Connection-mode selection (src: proto_http.c, `http_process_req_common`)

The block guarded by `TX_HDR_CONN_PRS` / differing frontend and backend
options computes the desired connection mode.  The `TX_CON_WANT_*` constants
live in a header that is not provided; their strict ordering
TUN < KAL < SCL < CLO is forced by the ordered comparisons
`(txn->flags & TX_CON_WANT_MSK) < tmp` and `>= TX_CON_WANT_SCL` in the
source, and matches the spec precedence. -/

/-- Desired connection mode (`TX_CON_WANT_TUN` .. `TX_CON_WANT_CLO`). -/
inductive ConnMode
  | TUN
  | KAL
  | SCL
  | CLO
deriving DecidableEq

/-- Numeric value of the two-bit `TX_CON_WANT_*` field. -/
def ConnMode.toBits : ConnMode → Nat
  | .TUN => 0
  | .KAL => 1
  | .SCL => 2
  | .CLO => 3

/-- The four per-proxy connection options of the mask
`PR_O_KEEPALIVE | PR_O_SERVER_CLO | PR_O_HTTP_CLOSE | PR_O_FORCE_CLO`. -/
structure PrOpts where
  keepalive : Bool
  srvclose : Bool
  httpclose : Bool
  forceclose : Bool
deriving DecidableEq

/-- Whether any of the four connection options is set. -/
def PrOpts.any4 (o : PrOpts) : Bool :=
  o.keepalive || o.srvclose || o.httpclose || o.forceclose

/-- Embedding of the first-invocation connection-mode selection of
`http_process_req_common` (the `TX_HDR_CONN_PRS` flag is clear, the mode field
of `txn->flags` is still zero = TUN).  Inputs: the two option sets, the
`PR_O2_FAKE_KA` bits, the request HTTP/1.1 flag, the parsed
`Connection: close` / `Connection: keep-alive` tokens, the
`HTTP_MSGF_XFER_LEN` flag and whether the frontend is in `PR_STSTOPPED`. -/
def http_req_conn_mode (fe be : PrOpts) (feFakeKa beFakeKa : Bool)
    (ver11 connClo connKal xferLen feStopping : Bool) : ConnMode :=
  if fe.any4 || fe ≠ be then
    let tmp0 := ConnMode.TUN
    let tmp1 := if fe.keepalive || be.keepalive || feFakeKa || beFakeKa then
        ConnMode.KAL else tmp0
    let tmp2 := if fe.srvclose || be.srvclose then ConnMode.SCL else tmp1
    let tmp := if fe.forceclose || be.forceclose then ConnMode.CLO else tmp2
    let mode := if ConnMode.TUN.toBits < tmp.toBits then tmp else ConnMode.TUN
    if (mode = ConnMode.KAL ∨ mode = ConnMode.SCL) ∧
       (connClo = true ∨ (ver11 = false ∧ connKal = false) ∨
        fe.httpclose = true ∨ be.httpclose = true ∨
        xferLen = false ∨ feStopping = true)
    then ConnMode.CLO else mode
  else ConnMode.TUN

/-- The connection mode computed the way claim C1 words it: precedence
FORCE_CLOSE > HTTP_CLOSE > SERVER_CLOSE > KEEP_ALIVE > TUNNEL over the union
of frontend and backend options, then downgrade of KAL/SCL to CLO on the four
listed conditions. -/
def claimC1Mode (fe be : PrOpts) (ver11 connClo connKal xferLen feStopping : Bool) :
    ConnMode :=
  let m := if fe.forceclose || be.forceclose then ConnMode.CLO
    else if fe.httpclose || be.httpclose then ConnMode.CLO
    else if fe.srvclose || be.srvclose then ConnMode.SCL
    else if fe.keepalive || be.keepalive then ConnMode.KAL
    else ConnMode.TUN
  if (m = ConnMode.KAL ∨ m = ConnMode.SCL) ∧
     (connClo = true ∨ (ver11 = false ∧ connKal = false) ∨
      xferLen = false ∨ feStopping = true)
  then ConnMode.CLO else m

/-- The amended mode computation: the block only runs when the frontend has
one of the four options or the two option sets differ (otherwise the mode
stays TUNNEL); `option httpclose` does not enter the precedence (by itself it
leaves a TUNNEL mode) but joins the downgrade conditions; fake keep-alive
counts as the keep-alive option for the precedence. -/
def amendedC1Mode (fe be : PrOpts) (feFakeKa beFakeKa : Bool)
    (ver11 connClo connKal xferLen feStopping : Bool) : ConnMode :=
  if !(fe.any4 || fe ≠ be) then ConnMode.TUN
  else
    let m := if fe.forceclose || be.forceclose then ConnMode.CLO
      else if fe.srvclose || be.srvclose then ConnMode.SCL
      else if fe.keepalive || be.keepalive || feFakeKa || beFakeKa then ConnMode.KAL
      else ConnMode.TUN
    if (m = ConnMode.KAL ∨ m = ConnMode.SCL) ∧
       (connClo = true ∨ (ver11 = false ∧ connKal = false) ∨
        fe.httpclose = true ∨ be.httpclose = true ∨
        xferLen = false ∨ feStopping = true)
    then ConnMode.CLO else m

/-- Counterexample to C1 as stated: with `option httpclose` alone on the
frontend (an HTTP/1.1 request with known length, no Connection tokens, the
frontend running), the source leaves the mode at TUNNEL — the comment in the
source even says "Option httpclose by itself does not set a mode, it remains
a tunnel mode in which headers are mangled" — while the claimed precedence
makes it CLOSE. -/
theorem claim_C1_counterexample :
    http_req_conn_mode ⟨false, false, true, false⟩ ⟨false, false, false, false⟩
        false false true false false true false = ConnMode.TUN ∧
    claimC1Mode ⟨false, false, true, false⟩ ⟨false, false, false, false⟩
        true false false true false = ConnMode.CLO := by
  decide

/-- C1 (amended): over every combination of frontend options, backend
options, fake-keepalive bits, HTTP/1.1 flag, Connection tokens,
transfer-length knowledge and frontend state, the selected mode equals the
amended precedence computation (httpclose moved from the precedence to the
downgrade conditions, guarded by the first-call option test). -/
theorem claim_C1_conn_mode (fe be : PrOpts) (feFakeKa beFakeKa : Bool)
    (ver11 connClo connKal xferLen feStopping : Bool) :
    http_req_conn_mode fe be feFakeKa beFakeKa ver11 connClo connKal xferLen feStopping
      = amendedC1Mode fe be feFakeKa beFakeKa ver11 connClo connKal xferLen feStopping := by
  rcases fe with ⟨fk, fs, fh, ff⟩
  rcases be with ⟨bk, bs, bh, bf⟩
  revert feFakeKa beFakeKa ver11 connClo connKal xferLen feStopping
  revert fk fs fh ff bk bs bh bf
  decide

/-! ## Cookie date tolerance (src: proto_http.c, `manage_client_side_cookies`)

The block after date extraction:

```
if (txn->cookie_first_date && t->be->cookie_maxlife &&
    (((signed)(date.tv_sec - txn->cookie_first_date) > (signed)t->be->cookie_maxlife) ||
     ((signed)(txn->cookie_first_date - date.tv_sec) > 86400))) { ... }
else if (txn->cookie_last_date && t->be->cookie_maxidle && ( ... )) { ... }
```

Both branches clear the TX_CK mask, pretend the cookie value is empty
(`delim = val_beg`, which discards the server match) and zero both dates. -/

/-- 32-bit truncation. -/
def u32 (x : Nat) : Nat := x % 2 ^ 32

/-- Reinterpretation of a 32-bit value as a signed C `int`
(two's complement). -/
def s32 (x : Nat) : Int :=
  if u32 x < 2 ^ 31 then (u32 x : Int) else (u32 x : Int) - 2 ^ 32

/-- 32-bit wraparound subtraction `a - b`. -/
def sub32 (a b : Nat) : Nat := (u32 a + 2 ^ 32 - u32 b) % 2 ^ 32

/-- Outcome of the cookie-date validity block: whether the cookie was
invalidated (server match discarded) and the resulting stored dates. -/
structure CookieCheckOut where
  ignored : Bool
  first : Nat
  last : Nat
deriving DecidableEq

/-- Embedding of the cookie-date validity block of
`manage_client_side_cookies`. `now` is `date.tv_sec`, `first`/`last` the
transaction's extracted cookie dates (0 when absent), `maxlife`/`maxidle` the
backend configuration (0 when unset). -/
def cookie_date_check (now first last maxlife maxidle : Nat) : CookieCheckOut :=
  if first ≠ 0 ∧ maxlife ≠ 0 ∧
     (s32 (sub32 now first) > s32 maxlife ∨ s32 (sub32 first now) > 86400) then
    ⟨true, 0, 0⟩
  else if last ≠ 0 ∧ maxidle ≠ 0 ∧
     (s32 (sub32 now last) > s32 maxidle ∨ s32 (sub32 last now) > 86400) then
    ⟨true, 0, 0⟩
  else ⟨false, first, last⟩

/-- The discard condition exactly as claim C9 words it: a carried date more
than 86400 seconds in the future of the wall clock, or the configured
maxlife/maxidle exceeded. -/
def claimC9Discard (now first last maxlife maxidle : Nat) : Prop :=
  (first ≠ 0 ∧ (s32 (sub32 first now) > 86400 ∨
                (maxlife ≠ 0 ∧ s32 (sub32 now first) > s32 maxlife))) ∨
  (last ≠ 0 ∧ (s32 (sub32 last now) > 86400 ∨
               (maxidle ≠ 0 ∧ s32 (sub32 now last) > s32 maxidle)))

/-- Counterexample to C9 as stated: a first-seen date 200000 seconds in the
future with no `maxlife` configured (`cookie_maxlife = 0`).  The claim says
the cookie is treated as not present, but the source only reaches the check
when `t->be->cookie_maxlife` is nonzero, so nothing is discarded. -/
theorem claim_C9_counterexample :
    claimC9Discard 1000000 1200000 0 0 0 ∧
    cookie_date_check 1000000 1200000 0 0 0 = ⟨false, 1200000, 0⟩ := by
  constructor
  · left
    refine ⟨by norm_num, Or.inl ?_⟩
    norm_num [s32, sub32, u32]
  · norm_num [cookie_date_check, s32, sub32, u32]

/-- C9 (amended): the cookie is treated as not present and both dates are
cleared exactly when one of the two source checks fires; each check requires
its date to be carried and its limit to be configured nonzero, the last-seen
check runs only when the first-seen check did not fire, and the comparisons
are 32-bit signed wraparound arithmetic. -/
theorem claim_C9_cookie_dates (now first last maxlife maxidle : Nat) :
    ((cookie_date_check now first last maxlife maxidle).ignored = true ↔
      ((first ≠ 0 ∧ maxlife ≠ 0 ∧
        (s32 (sub32 now first) > s32 maxlife ∨ s32 (sub32 first now) > 86400)) ∨
       (¬(first ≠ 0 ∧ maxlife ≠ 0 ∧
          (s32 (sub32 now first) > s32 maxlife ∨ s32 (sub32 first now) > 86400)) ∧
        last ≠ 0 ∧ maxidle ≠ 0 ∧
        (s32 (sub32 now last) > s32 maxidle ∨ s32 (sub32 last now) > 86400)))) ∧
    ((cookie_date_check now first last maxlife maxidle).ignored = true →
      (cookie_date_check now first last maxlife maxidle).first = 0 ∧
      (cookie_date_check now first last maxlife maxidle).last = 0) ∧
    ((cookie_date_check now first last maxlife maxidle).ignored = false →
      (cookie_date_check now first last maxlife maxidle).first = first ∧
      (cookie_date_check now first last maxlife maxidle).last = last) := by
  unfold cookie_date_check
  split_ifs with h1 h2 <;> simp_all

/-! ## Chunk-size parsing (src: proto_http.c, `http_parse_chunk_size`)

The C function walks the ring buffer from `msg->next` with a wrap-aware
pointer (`if (++ptr >= end) ptr = buf->data`) and stops at `bi_end(buf)`.
That walk visits exactly the unread input bytes in order, so the embedding
takes the list of unread bytes starting at `msg->next` and works with offsets
into it.  The four phases of the function (hex digits, optional whitespace,
optional `';' extension`, CR/LF) are sequential in the source (loop 1, loop
2, the `while(1)` dispatch), and each one only consumes bytes, so each phase
is a structural scan here. -/

/-- Modelled from the spec: `hex2i` (standard.h, not provided) converts a hex
digit to its value and returns a negative value otherwise. -/
def hex2i (c : Nat) : Int :=
  if 48 ≤ c ∧ c ≤ 57 then (c : Int) - 48
  else if 65 ≤ c ∧ c ≤ 70 then (c : Int) - 55
  else if 97 ≤ c ∧ c ≤ 102 then (c : Int) - 87
  else -1

/-- Whether `hex2i` accepts the byte. -/
def isHexDigit (c : Nat) : Bool :=
  (48 ≤ c && c ≤ 57) || (65 ≤ c && c ≤ 70) || (97 ≤ c && c ≤ 102)

/-- Result of `http_parse_chunk_size`: `>0` success (with the number of bytes
consumed and the parsed size), `0` missing data, `<0` parse error (with the
offset of `err_pos` relative to `msg->next`). -/
inductive ChunkRes
  | ok (consumed chunk : Nat)
  | missing
  | err (pos : Nat)
deriving DecidableEq

/-- Shift the positions in a result by the number of bytes previous phases
consumed. -/
def shiftRes : ChunkRes → Nat → ChunkRes
  | .ok c v, n => .ok (c + n) v
  | .missing, _ => .missing
  | .err p, n => .err (p + n)

/-- Outcome of the hex-digit loop. -/
inductive DigScan
  | missing
  | ovf (pos : Nat)
  | done (count value : Nat)
deriving DecidableEq

/-- The first loop of `http_parse_chunk_size`: `if (ptr == stop) return 0;
c = hex2i(*ptr); if (c < 0) break; ++ptr; if (chunk & 0xF8000000) goto error;
chunk = (chunk << 4) + c;`.  The mask test is `chunk ≥ 2^27` (the accumulated
value is always below 2^32). -/
def scanDigits : List Nat → Nat → DigScan
  | [], _ => .missing
  | c :: rest, chunk =>
    if hex2i c < 0 then .done 0 chunk
    else if 2 ^ 27 ≤ chunk then .ovf 1
    else match scanDigits rest (chunk * 16 + (hex2i c).toNat) with
      | .missing => .missing
      | .ovf p => .ovf (p + 1)
      | .done n v => .done (n + 1) v

/-- The whitespace loop: `while (http_is_spht[*ptr]) { ++ptr; if (ptr == stop)
return 0; }`; `none` is the missing-data return, `some n` skips `n` bytes and
guarantees a byte follows. -/
def scanWsp : List Nat → Option Nat
  | [] => none
  | c :: rest => if http_is_spht c then (scanWsp rest).map (· + 1) else some 0

/-- The extension loop after `';'`: `while (!HTTP_IS_CRLF(*ptr)) { ++ptr;
if (ptr == stop) return 0; }`; `some n` stops with byte `n` being CR or LF. -/
def scanExt : List Nat → Option Nat
  | [] => none
  | c :: rest => if http_is_crlf c then some 0 else (scanExt rest).map (· + 1)

/-- The CR/LF acceptance: an optional CR (which must then be followed by LF)
or a bare LF.  A non-CRLF head is the error exit of the dispatch. -/
def scanEol (chunk : Nat) : List Nat → ChunkRes
  | [] => .missing
  | c :: rest =>
    if c = 13 then
      match rest with
      | [] => .missing
      | c2 :: _ => if c2 = 10 then .ok 2 chunk else .err 1
    else if c = 10 then .ok 1 chunk
    else .err 0

/-- The `while(1)` dispatch after the whitespace: CR/LF ends the line, `';'`
skips the extension and then requires CR/LF, anything else is an error. -/
def scanTerm (chunk : Nat) : List Nat → ChunkRes
  | [] => .missing
  | c :: rest =>
    if http_is_crlf c then scanEol chunk (c :: rest)
    else if c = 59 then
      match scanExt rest with
      | none => .missing
      | some m => shiftRes (scanEol chunk (rest.drop m)) (1 + m)
    else .err 0

/-- Continuation of `http_parse_chunk_size` after the whitespace loop. -/
def csAfterWsp (ins : List Nat) (kk v : Nat) : Option Nat → ChunkRes
  | none => .missing
  | some w => shiftRes (scanTerm v (ins.drop (kk + w))) (kk + w)

/-- Continuation of `http_parse_chunk_size` after the digit loop: the
missing/overflow returns, the `ptr == ptr_old` empty-size error, then the
whitespace loop. -/
def csAfterDigits (ins : List Nat) : DigScan → ChunkRes
  | .missing => .missing
  | .ovf p => .err p
  | .done 0 _ => .err 0
  | .done (n + 1) v => csAfterWsp ins (n + 1) v (scanWsp (ins.drop (n + 1)))

/-- Embedding of `http_parse_chunk_size` over the unread input bytes: the
return/consumed/error view. -/
def http_parse_chunk_size_run (ins : List Nat) : ChunkRes :=
  csAfterDigits ins (scanDigits ins 0)

/-- Message states reachable from `HTTP_MSG_CHUNK_SIZE`. -/
inductive CSState
  | CHUNK_SIZE
  | DATA
  | TRAILERS
deriving DecidableEq

/-- The `http_msg` fields `http_parse_chunk_size` touches. -/
structure CSMsg where
  next : Nat
  sov : Nat
  chunk_len : Nat
  body_len : Nat
  state : CSState
  err_pos : Int
deriving DecidableEq

/-- Embedding of `http_parse_chunk_size` at the message level: on success it
advances `sov` and `next` past the parsed bytes, assigns `chunk_len`, adds the
size to `body_len` and switches to DATA (size > 0) or TRAILERS (size 0); on
missing data it changes nothing; on error it records `err_pos`. -/
def http_parse_chunk_size (m : CSMsg) (ins : List Nat) : Int × CSMsg :=
  match http_parse_chunk_size_run ins with
  | .ok consumed chunk =>
    (1, { m with
            sov := m.sov + consumed,
            next := m.next + consumed,
            chunk_len := chunk,
            body_len := m.body_len + chunk,
            state := if chunk = 0 then CSState.TRAILERS else CSState.DATA })
  | .missing => (0, m)
  | .err p => (-1, { m with err_pos := ((m.next + p : Nat) : Int) })

/-- Value of a hex digit string, most significant first. -/
def hexVal (ds : List Nat) : Nat :=
  ds.foldl (fun a c => a * 16 + (hex2i c).toNat) 0

/-- Grammar view, digit run: `1*HEXDIGIT`. -/
def csDs (ins : List Nat) : List Nat := ins.takeWhile isHexDigit

/-- Grammar view, whitespace run after the digits: `*WSP`. -/
def csWs (ins : List Nat) : List Nat :=
  (ins.drop (csDs ins).length).takeWhile http_is_spht

/-- Grammar view, what follows the whitespace. -/
def csR2 (ins : List Nat) : List Nat :=
  (ins.drop (csDs ins).length).drop (csWs ins).length

/-- Grammar view, length of the optional `';' extension` part. -/
def csExtLen (ins : List Nat) : Nat :=
  if (csR2 ins).head? = some 59 then
    1 + (((csR2 ins).drop 1).takeWhile (fun c => !http_is_crlf c)).length
  else 0

/-- Grammar view, what follows the extension (the line terminator). -/
def csR3 (ins : List Nat) : List Nat := (csR2 ins).drop (csExtLen ins)

/-- Grammar view, bytes before the line terminator. -/
def csPre (ins : List Nat) : Nat :=
  (csDs ins).length + (csWs ins).length + csExtLen ins

/-- The chunk-size grammar as amended: `1*HEXDIGIT *WSP [';' ext-bytes]
(CRLF | LF)` with a value below 2^31; yields the value and the number of
bytes the line occupies. -/
def chunkSizeGrammar (ins : List Nat) : Option (Nat × Nat) :=
  if (csDs ins).isEmpty then none
  else if 2 ^ 31 ≤ hexVal (csDs ins) then none
  else if (csR3 ins).take 2 = [13, 10] then some (hexVal (csDs ins), csPre ins + 2)
  else if (csR3 ins).take 1 = [10] then some (hexVal (csDs ins), csPre ins + 1)
  else none

/-- The grammar exactly as claim C3 states it, with a strict CRLF
terminator. -/
def claimC3Grammar (ins : List Nat) : Option (Nat × Nat) :=
  if (csDs ins).isEmpty then none
  else if 2 ^ 31 ≤ hexVal (csDs ins) then none
  else if (csR3 ins).take 2 = [13, 10] then some (hexVal (csDs ins), csPre ins + 2)
  else none

/-- Counterexample to C3 as stated: the source accepts a chunk size
terminated by a bare LF — on the input "1" LF it succeeds, consuming both
bytes with size 1 — although the claimed grammar `1*HEXDIGIT *WSP
[';' extensions] CRLF` does not generate that line. -/
theorem claim_C3_counterexample :
    http_parse_chunk_size_run [49, 10] = ChunkRes.ok 2 1 ∧
    claimC3Grammar [49, 10] = none := by
  decide

/-- Accumulating hex value, used to track the `chunk` variable. -/
def fold16 (a : Nat) (ds : List Nat) : Nat :=
  ds.foldl (fun x c => x * 16 + (hex2i c).toNat) a

theorem hexVal_eq_fold16 (ds : List Nat) : hexVal ds = fold16 0 ds := rfl

theorem hex2i_neg_iff (c : Nat) : hex2i c < 0 ↔ isHexDigit c = false := by
  unfold hex2i isHexDigit
  split_ifs with h1 h2 h3 <;> simp_all <;> omega

theorem hex2i_toNat_le (c : Nat) (h : isHexDigit c = true) : (hex2i c).toNat ≤ 15 := by
  unfold hex2i
  unfold isHexDigit at h
  split_ifs with h1 h2 h3 <;> simp_all <;> omega

theorem fold16_append (a : Nat) (l1 l2 : List Nat) :
    fold16 a (l1 ++ l2) = fold16 (fold16 a l1) l2 := by
  simp [fold16, List.foldl_append]

theorem fold16_ge (a : Nat) (l : List Nat) : a ≤ fold16 a l := by
  induction l generalizing a with
  | nil => simp [fold16]
  | cons d rest ih =>
    calc a ≤ a * 16 + (hex2i d).toNat := by omega
    _ ≤ fold16 (a * 16 + (hex2i d).toNat) rest := ih _
    _ = fold16 a (d :: rest) := rfl

theorem ovf_value_ge (chunk : Nat) (ds : List Nat)
    (h : ∃ i, i < ds.length ∧ 2 ^ 27 ≤ fold16 chunk (ds.take i)) :
    2 ^ 31 ≤ fold16 chunk ds := by
  obtain ⟨i, hi, hv⟩ := h
  have hsplit : ds = ds.take i ++ ds.drop i := (List.take_append_drop i ds).symm
  have hdrop : ds.drop i ≠ [] := by
    intro hnil
    have := List.drop_eq_nil_iff.mp hnil
    omega
  obtain ⟨d, rest, hd⟩ := List.exists_cons_of_ne_nil hdrop
  rw [hsplit, fold16_append, hd]
  have step : fold16 chunk (ds.take i) * 16 ≤
      fold16 chunk (ds.take i) * 16 + (hex2i d).toNat := by omega
  calc (2 ^ 31 : Nat) = 2 ^ 27 * 16 := by norm_num
  _ ≤ fold16 chunk (ds.take i) * 16 := by
        exact Nat.mul_le_mul_right 16 hv
  _ ≤ fold16 chunk (ds.take i) * 16 + (hex2i d).toNat := step
  _ ≤ fold16 (fold16 chunk (ds.take i) * 16 + (hex2i d).toNat) rest := fold16_ge _ _
  _ = fold16 (fold16 chunk (ds.take i)) (d :: rest) := rfl

theorem no_ovf_value_lt (ds : List Nat) (chunk : Nat)
    (hd : ∀ c ∈ ds, isHexDigit c = true) (hc : chunk < 2 ^ 31)
    (h : ∀ i, i < ds.length → fold16 chunk (ds.take i) < 2 ^ 27) :
    fold16 chunk ds < 2 ^ 31 := by
  induction ds generalizing chunk with
  | nil => simpa [fold16] using hc
  | cons d rest ih =>
    have h0 : chunk < 2 ^ 27 := by
      have := h 0 (by simp)
      simpa [fold16] using this
    have hdle : (hex2i d).toNat ≤ 15 := hex2i_toNat_le d (hd d (by simp))
    have hstep : chunk * 16 + (hex2i d).toNat < 2 ^ 31 := by omega
    have := ih (chunk * 16 + (hex2i d).toNat)
      (fun c hcmem => hd c (List.mem_cons_of_mem _ hcmem)) hstep ?_
    · simpa [fold16] using this
    · intro i hi
      have := h (i + 1) (by simpa using Nat.succ_lt_succ hi)
      simpa [fold16, List.take_succ_cons] using this

theorem scanWsp_spec (ins : List Nat) :
    scanWsp ins = if (ins.takeWhile http_is_spht).length = ins.length
      then none else some (ins.takeWhile http_is_spht).length := by
  induction ins with
  | nil => simp [scanWsp]
  | cons c rest ih =>
    by_cases h : http_is_spht c
    · rw [scanWsp, if_pos h, ih]
      by_cases hlen : (rest.takeWhile http_is_spht).length = rest.length
      · simp [hlen, List.takeWhile_cons, h]
      · simp [hlen, List.takeWhile_cons, h]
    · rw [scanWsp, if_neg h]
      have hz : (List.takeWhile http_is_spht (c :: rest)).length = 0 := by
        simp [List.takeWhile_cons, h]
      simp [hz]

theorem scanExt_spec (ins : List Nat) :
    scanExt ins = if (ins.takeWhile (fun c => !http_is_crlf c)).length = ins.length
      then none else some (ins.takeWhile (fun c => !http_is_crlf c)).length := by
  induction ins with
  | nil => simp [scanExt]
  | cons c rest ih =>
    by_cases h : http_is_crlf c
    · rw [scanExt, if_pos h]
      have hz : (List.takeWhile (fun c => !http_is_crlf c) (c :: rest)).length = 0 := by
        simp [List.takeWhile_cons, h]
      simp [hz]
    · rw [scanExt, if_neg h, ih]
      by_cases hlen : (rest.takeWhile (fun c => !http_is_crlf c)).length = rest.length
      · simp [hlen, List.takeWhile_cons, h]
      · simp [hlen, List.takeWhile_cons, h]

theorem scanDigits_no_ovf (ins : List Nat) (chunk : Nat)
    (h : ∀ i, i < (ins.takeWhile isHexDigit).length →
         fold16 chunk ((ins.takeWhile isHexDigit).take i) < 2 ^ 27) :
    scanDigits ins chunk =
      if (ins.takeWhile isHexDigit).length = ins.length then DigScan.missing
      else DigScan.done (ins.takeWhile isHexDigit).length
             (fold16 chunk (ins.takeWhile isHexDigit)) := by
  induction ins generalizing chunk with
  | nil => simp [scanDigits]
  | cons c rest ih =>
    by_cases hc : isHexDigit c
    · have hneg : ¬ hex2i c < 0 := by
        rw [hex2i_neg_iff]
        simp [hc]
      have htw : (c :: rest).takeWhile isHexDigit = c :: rest.takeWhile isHexDigit := by
        simp [List.takeWhile_cons, hc]
      have h0 : chunk < 2 ^ 27 := by
        have := h 0 (by rw [htw]; simp)
        simpa [fold16] using this
      rw [scanDigits, if_neg hneg, if_neg (by omega)]
      rw [ih (chunk * 16 + (hex2i c).toNat) ?_]
      · rw [htw]
        by_cases hlen : (rest.takeWhile isHexDigit).length = rest.length
        · simp [hlen]
        · have hlen2 : ¬ ((c :: rest.takeWhile isHexDigit).length = (c :: rest).length) := by
            simp [hlen]
          simp only [hlen, if_neg hlen2, if_neg hlen]
          simp [fold16]
      · intro i hi
        have := h (i + 1) (by rw [htw]; simpa using Nat.succ_lt_succ hi)
        rw [htw] at this
        simpa [fold16, List.take_succ_cons] using this
    · have hneg : hex2i c < 0 := by
        rw [hex2i_neg_iff]
        simp [hc]
      have htw : (c :: rest).takeWhile isHexDigit = [] := by
        simp [List.takeWhile_cons, hc]
      rw [scanDigits, if_pos hneg]
      simp [htw, fold16]

theorem scanDigits_ovf (ins : List Nat) (chunk : Nat)
    (h : ∃ i, i < (ins.takeWhile isHexDigit).length ∧
         2 ^ 27 ≤ fold16 chunk ((ins.takeWhile isHexDigit).take i)) :
    ∃ p, scanDigits ins chunk = DigScan.ovf p := by
  induction ins generalizing chunk with
  | nil => simp at h
  | cons c rest ih =>
    obtain ⟨i, hi, hv⟩ := h
    by_cases hc : isHexDigit c
    · have hneg : ¬ hex2i c < 0 := by
        rw [hex2i_neg_iff]
        simp [hc]
      have htw : (c :: rest).takeWhile isHexDigit = c :: rest.takeWhile isHexDigit := by
        simp [List.takeWhile_cons, hc]
      rw [htw] at hi hv
      by_cases h27 : 2 ^ 27 ≤ chunk
      · exact ⟨1, by rw [scanDigits, if_neg hneg, if_pos h27]⟩
      · cases i with
        | zero =>
          simp [fold16] at hv
          omega
        | succ j =>
          have hrec := ih (chunk * 16 + (hex2i c).toNat)
            ⟨j, by simpa using Nat.lt_of_succ_lt_succ hi,
              by simpa [fold16, List.take_succ_cons] using hv⟩
          obtain ⟨p, hp⟩ := hrec
          refine ⟨p + 1, ?_⟩
          rw [scanDigits, if_neg hneg, if_neg h27, hp]
    · have htw : (c :: rest).takeWhile isHexDigit = [] := by
        simp [List.takeWhile_cons, hc]
      rw [htw] at hi
      simp at hi


theorem http_is_crlf_iff (c : Nat) : http_is_crlf c = true ↔ c = 13 ∨ c = 10 := by
  simp [http_is_crlf]

theorem csDs_eq (ins : List Nat) : csDs ins = ins.takeWhile isHexDigit := rfl

theorem csDs_all_hex (ins : List Nat) : ∀ c ∈ csDs ins, isHexDigit c = true :=
  fun _ hc => List.mem_takeWhile_imp hc

theorem takeWhile_len_le (p : Nat → Bool) (l : List Nat) :
    (l.takeWhile p).length ≤ l.length := by
  induction l with
  | nil => simp
  | cons c rest ih =>
    rw [List.takeWhile_cons]
    split <;> simp <;> omega

theorem csDs_len_le (ins : List Nat) : (csDs ins).length ≤ ins.length :=
  takeWhile_len_le _ ins

theorem parse_cs_ok_iff (ins : List Nat) (v n : Nat) :
    http_parse_chunk_size_run ins = ChunkRes.ok n v ↔
      chunkSizeGrammar ins = some (v, n) := by
  classical
  by_cases hovf : ∃ i, i < (csDs ins).length ∧
      2 ^ 27 ≤ fold16 0 ((csDs ins).take i)
  · obtain ⟨p, hp⟩ := scanDigits_ovf ins 0 hovf
    have hval : 2 ^ 31 ≤ hexVal (csDs ins) := by
      rw [hexVal_eq_fold16]
      exact ovf_value_ge 0 _ hovf
    have hne : (csDs ins).isEmpty = false := by
      obtain ⟨i, hi, _⟩ := hovf
      cases hd : csDs ins <;> simp_all
    have hrun : http_parse_chunk_size_run ins = ChunkRes.err p := by
      rw [http_parse_chunk_size_run, hp, csAfterDigits]
    rw [hrun, chunkSizeGrammar, hne, if_pos hval]
    simp
  · push_neg at hovf
    have hd := scanDigits_no_ovf ins 0 hovf
    rw [← csDs_eq] at hd
    by_cases hL : (csDs ins).length = ins.length
    · -- the digit run extends to the end of the input: missing data
      have hrun : http_parse_chunk_size_run ins = ChunkRes.missing := by
        rw [http_parse_chunk_size_run, hd, if_pos hL, csAfterDigits]
      have hr3 : csR3 ins = [] := by
        have hnil : ins.drop (csDs ins).length = [] := by
          rw [hL, List.drop_length]
        simp [csR3, csR2, csExtLen, hnil]
      rw [hrun, chunkSizeGrammar]
      split_ifs <;> simp_all [hr3]
    · rcases hk : (csDs ins).length with _ | k
      · -- empty digit run: error
        have hrun : http_parse_chunk_size_run ins = ChunkRes.err 0 := by
          rw [http_parse_chunk_size_run, hd, if_neg hL, hk, csAfterDigits]
        have hne : (csDs ins).isEmpty = true := by
          cases hd2 : csDs ins <;> simp_all
        rw [hrun, chunkSizeGrammar, hne]
        simp
      · -- at least one digit, terminated: whitespace phase
        have hv0 : fold16 0 (csDs ins) < 2 ^ 31 :=
          no_ovf_value_lt _ 0 (csDs_all_hex ins) (by norm_num) hovf
        have hvne : ¬ 2 ^ 31 ≤ hexVal (csDs ins) := by
          rw [hexVal_eq_fold16]
          omega
        have hneDs : (csDs ins).isEmpty = false := by
          cases hd2 : csDs ins <;> simp_all
        have hws := scanWsp_spec (ins.drop (k + 1))
        have hwseq : (ins.drop (k + 1)).takeWhile http_is_spht = csWs ins := by
          rw [csWs, hk]
        rw [hwseq] at hws
        by_cases hWL : (csWs ins).length = (ins.drop (k + 1)).length
        · -- everything after the digits is whitespace: missing data
          have hrun : http_parse_chunk_size_run ins = ChunkRes.missing := by
            rw [http_parse_chunk_size_run, hd, if_neg hL, hk, csAfterDigits,
              hws, if_pos hWL, csAfterWsp]
          have hr2 : csR2 ins = [] := by
            rw [csR2, hk, hWL, List.drop_length]
          have hr3 : csR3 ins = [] := by
            simp [csR3, hr2]
          rw [hrun, chunkSizeGrammar]
          split_ifs <;> simp_all [hr3]
        · have hw : scanWsp (ins.drop (k + 1)) = some (csWs ins).length := by
            rw [hws, if_neg hWL]
          set w := (csWs ins).length with hwdef
          have hr2eq : ins.drop (k + 1 + w) = csR2 ins := by
            rw [csR2, hk, List.drop_drop]
          have hrun : http_parse_chunk_size_run ins =
              shiftRes (scanTerm (fold16 0 (csDs ins)) (csR2 ins)) (k + 1 + w) := by
            rw [http_parse_chunk_size_run, hd, if_neg hL, hk, csAfterDigits,
              hw, csAfterWsp, hr2eq]
          have hle : w ≤ (ins.drop (k + 1)).length := by
            rw [hwdef, ← hwseq]
            exact takeWhile_len_le _ _
          have hlt : w < (ins.drop (k + 1)).length := lt_of_le_of_ne hle hWL
          have hr2ne : csR2 ins ≠ [] := by
            rw [← hr2eq]
            intro hnil
            have hdn := List.drop_eq_nil_iff.mp hnil
            rw [List.length_drop] at hlt
            omega
          obtain ⟨c, r2tl, hr2⟩ := List.exists_cons_of_ne_nil hr2ne
          by_cases hc13 : c = 13
          · subst hc13
            have hterm : scanTerm (fold16 0 (csDs ins)) (csR2 ins)
                = scanEol (fold16 0 (csDs ins)) (13 :: r2tl) := by
              rw [hr2, scanTerm]
              simp [http_is_crlf]
            have hext : csExtLen ins = 0 := by
              rw [csExtLen, hr2]
              simp
            have hr3 : csR3 ins = 13 :: r2tl := by
              rw [csR3, hext, hr2, List.drop_zero]
            cases r2tl with
            | nil =>
              rw [hrun, hterm, chunkSizeGrammar, hneDs, if_neg hvne]
              simp [scanEol, shiftRes, hr3]
            | cons c2 r3tl =>
              by_cases hc2 : c2 = 10
              · subst hc2
                rw [hrun, hterm, chunkSizeGrammar, hneDs, if_neg hvne]
                rw [show scanEol (fold16 0 (csDs ins)) (13 :: 10 :: r3tl)
                      = ChunkRes.ok 2 (fold16 0 (csDs ins)) by simp [scanEol]]
                rw [hr3]
                simp [shiftRes, csPre, hexVal_eq_fold16, hext, hk, ← hwdef]
                constructor
                · rintro ⟨h1, h2⟩
                  constructor <;> omega
                · rintro ⟨h1, h2⟩
                  constructor <;> omega
              · rw [hrun, hterm, chunkSizeGrammar, hneDs, if_neg hvne]
                rw [show scanEol (fold16 0 (csDs ins)) (13 :: c2 :: r3tl)
                      = ChunkRes.err 1 by simp [scanEol, hc2]]
                rw [hr3]
                simp [shiftRes, hc2]
          · by_cases hc10 : c = 10
            · subst hc10
              have hterm : scanTerm (fold16 0 (csDs ins)) (csR2 ins)
                  = ChunkRes.ok 1 (fold16 0 (csDs ins)) := by
                rw [hr2, scanTerm]
                simp [http_is_crlf, scanEol]
              have hext : csExtLen ins = 0 := by
                rw [csExtLen, hr2]
                simp
              have hr3 : csR3 ins = 10 :: r2tl := by
                rw [csR3, hext, hr2, List.drop_zero]
              rw [hrun, hterm, chunkSizeGrammar, hneDs, if_neg hvne, hr3]
              simp [shiftRes, csPre, hexVal_eq_fold16, hext, hk, ← hwdef]
              constructor
              · rintro ⟨h1, h2⟩
                constructor <;> omega
              · rintro ⟨h1, h2⟩
                constructor <;> omega
            · by_cases hc59 : c = 59
              · subst hc59
                have hcrlf : http_is_crlf 59 = false := by decide
                have hextsp := scanExt_spec r2tl
                set mid := r2tl.takeWhile (fun x => !http_is_crlf x) with hmid
                have hext : csExtLen ins = 1 + mid.length := by
                  rw [csExtLen, hr2]
                  simp [hmid]
                have hr3 : csR3 ins = r2tl.drop mid.length := by
                  rw [csR3, hext, hr2, Nat.add_comm 1 mid.length, List.drop_succ_cons]
                by_cases hML : mid.length = r2tl.length
                · have hterm : scanTerm (fold16 0 (csDs ins)) (csR2 ins)
                      = ChunkRes.missing := by
                    rw [hr2, scanTerm]
                    rw [if_neg (by simp [hcrlf]), if_pos rfl, hextsp, if_pos hML]
                  have hr3nil : csR3 ins = [] := by
                    rw [hr3, hML, List.drop_length]
                  rw [hrun, hterm, chunkSizeGrammar]
                  split_ifs <;> simp_all [hr3nil, shiftRes]
                · have hterm : scanTerm (fold16 0 (csDs ins)) (csR2 ins)
                      = shiftRes (scanEol (fold16 0 (csDs ins)) (r2tl.drop mid.length))
                          (1 + mid.length) := by
                    rw [hr2, scanTerm]
                    rw [if_neg (by simp [hcrlf]), if_pos rfl, hextsp, if_neg hML]
                  have hmle : mid.length ≤ r2tl.length := takeWhile_len_le _ _
                  have hr3ne : r2tl.drop mid.length ≠ [] := by
                    intro hnil
                    have := List.drop_eq_nil_iff.mp hnil
                    omega
                  obtain ⟨c3, r3tl, hc3⟩ := List.exists_cons_of_ne_nil hr3ne
                  by_cases h313 : c3 = 13
                  · subst h313
                    cases r3tl with
                    | nil =>
                      rw [hrun, hterm, hc3, chunkSizeGrammar, hneDs, if_neg hvne, hr3, hc3]
                      simp [scanEol, shiftRes]
                    | cons c4 r4tl =>
                      by_cases hc4 : c4 = 10
                      · subst hc4
                        rw [hrun, hterm, hc3, chunkSizeGrammar, hneDs, if_neg hvne, hr3, hc3]
                        rw [show scanEol (fold16 0 (csDs ins)) (13 :: 10 :: r4tl)
                              = ChunkRes.ok 2 (fold16 0 (csDs ins)) by simp [scanEol]]
                        simp [shiftRes, csPre, hexVal_eq_fold16, hext, hk, ← hwdef]
                        constructor
                        · rintro ⟨h1, h2⟩
                          constructor <;> omega
                        · rintro ⟨h1, h2⟩
                          constructor <;> omega
                      · rw [hrun, hterm, hc3, chunkSizeGrammar, hneDs, if_neg hvne, hr3, hc3]
                        rw [show scanEol (fold16 0 (csDs ins)) (13 :: c4 :: r4tl)
                              = ChunkRes.err 1 by simp [scanEol, hc4]]
                        simp [shiftRes, hc4]
                  · by_cases h310 : c3 = 10
                    · subst h310
                      rw [hrun, hterm, hc3, chunkSizeGrammar, hneDs, if_neg hvne, hr3, hc3]
                      rw [show scanEol (fold16 0 (csDs ins)) (10 :: r3tl)
                            = ChunkRes.ok 1 (fold16 0 (csDs ins)) by simp [scanEol]]
                      simp [shiftRes, csPre, hexVal_eq_fold16, hext, hk, ← hwdef]
                      constructor
                      · rintro ⟨h1, h2⟩
                        constructor <;> omega
                      · rintro ⟨h1, h2⟩
                        constructor <;> omega
                    · rw [hrun, hterm, hc3, chunkSizeGrammar, hneDs, if_neg hvne, hr3, hc3]
                      rw [show scanEol (fold16 0 (csDs ins)) (c3 :: r3tl)
                            = ChunkRes.err 0 by simp [scanEol, h313, h310]]
                      simp [shiftRes, h313, h310]
              · -- neither CRLF nor a semicolon: parse error
                have hcrlf : http_is_crlf c = false := by
                  simp [http_is_crlf, hc13, hc10]
                have hterm : scanTerm (fold16 0 (csDs ins)) (csR2 ins)
                    = ChunkRes.err 0 := by
                  rw [hr2, scanTerm]
                  rw [if_neg (by simp [hcrlf]), if_neg hc59]
                have hext : csExtLen ins = 0 := by
                  rw [csExtLen, hr2]
                  simp [hc59]
                have hr3 : csR3 ins = c :: r2tl := by
                  rw [csR3, hext, hr2, List.drop_zero]
                rw [hrun, hterm, chunkSizeGrammar, hneDs, if_neg hvne, hr3]
                simp [shiftRes, hc13, hc10]

theorem takeWhile_append_all (p : Nat → Bool) (l1 l2 : List Nat)
    (h : ∀ c ∈ l1, p c = true) :
    (l1 ++ l2).takeWhile p = l1 ++ l2.takeWhile p := by
  induction l1 with
  | nil => simp
  | cons c rest ih =>
    rw [List.cons_append, List.takeWhile_cons, if_pos (h c (by simp))]
    rw [ih (fun x hx => h x (by simp [hx]))]
    simp

theorem parse_cs_overflow (ins ds rest : List Nat) (hsplit : ins = ds ++ rest)
    (hne : ds ≠ []) (hhex : ∀ c ∈ ds, isHexDigit c = true)
    (hval : 2 ^ 31 ≤ hexVal ds) :
    ∃ p, http_parse_chunk_size_run ins = ChunkRes.err p := by
  have hcs : csDs ins = ds ++ rest.takeWhile isHexDigit := by
    rw [csDs_eq, hsplit, takeWhile_append_all _ _ _ hhex]
  have hov : ∃ i, i < ds.length ∧ 2 ^ 27 ≤ fold16 0 (ds.take i) := by
    by_contra hno
    push_neg at hno
    have := no_ovf_value_lt ds 0 hhex (by norm_num) hno
    rw [hexVal_eq_fold16] at hval
    omega
  obtain ⟨i, hi, hfv⟩ := hov
  have hov2 : ∃ i, i < (csDs ins).length ∧ 2 ^ 27 ≤ fold16 0 ((csDs ins).take i) := by
    refine ⟨i, ?_, ?_⟩
    · rw [hcs, List.length_append]
      omega
    · rw [hcs, List.take_append_of_le_length (by omega)]
      exact hfv
  obtain ⟨p, hp⟩ := scanDigits_ovf ins 0 hov2
  exact ⟨p, by rw [http_parse_chunk_size_run, hp, csAfterDigits]⟩

/-- C3 (amended): `http_parse_chunk_size` succeeds exactly on the lines of
the grammar `1*HEXDIGIT *WSP [';' extensions] (CRLF | LF)` — a bare LF is
also accepted as the terminator — whose size value is below 2^31; every line
whose leading hex-digit run encodes a value ≥ 2^31 is refused with a parse
error before the overflow can happen; and on success the message's
`chunk_len` is set to the parsed size, the size is added to `body_len`,
`sov` and `next` advance past the parsed bytes, and the state becomes DATA
for a nonzero size and TRAILERS for size zero. -/
theorem claim_C3_parse_chunk_size (m : CSMsg) (ins : List Nat) :
    (∀ v n, http_parse_chunk_size_run ins = ChunkRes.ok n v ↔
        chunkSizeGrammar ins = some (v, n)) ∧
    (∀ ds rest, ins = ds ++ rest → ds ≠ [] →
        (∀ c ∈ ds, isHexDigit c = true) → 2 ^ 31 ≤ hexVal ds →
        ∃ p, http_parse_chunk_size_run ins = ChunkRes.err p) ∧
    (∀ v n, http_parse_chunk_size_run ins = ChunkRes.ok n v →
        http_parse_chunk_size m ins =
          (1, { m with
                  sov := m.sov + n,
                  next := m.next + n,
                  chunk_len := v,
                  body_len := m.body_len + v,
                  state := if v = 0 then CSState.TRAILERS else CSState.DATA })) := by
  refine ⟨fun v n => parse_cs_ok_iff ins v n, ?_, ?_⟩
  · intro ds rest hsplit hne hhex hval
    exact parse_cs_overflow ins ds rest hsplit hne hhex hval
  · intro v n hok
    rw [http_parse_chunk_size, hok]

/-! ## Trailer forwarding (src: proto_http.c, `http_forward_trailers`) -/

/-- Outcome of scanning a single trailer line: out of data before any LF, a
parse error (a CR seen when `p1` was already set, at the given offset), or a
complete line whose LF sits at offset `len`. -/
inductive LineScan
  | missing
  | errCR (pos : Nat)
  | eol (len : Nat)
deriving DecidableEq

/-- Shift positions by one consumed byte. -/
def shiftLine : LineScan → Nat → LineScan
  | .missing, _ => .missing
  | .errCR p, n => .errCR (p + n)
  | .eol l, n => .eol (l + n)

/-- The inner loop of `http_forward_trailers`: walk the line; LF ends it; a
CR when one was already recorded in `p1` is the parse error; otherwise a CR
is recorded and the walk continues. -/
def scanLine : List Nat → Bool → LineScan
  | [], _ => .missing
  | c :: rest, crSeen =>
    if c = 10 then .eol 0
    else if c = 13 then
      if crSeen then .errCR 0
      else shiftLine (scanLine rest true) 1
    else shiftLine (scanLine rest crSeen) 1

/-- Result of `http_forward_trailers`: `done` (end of trailers found after
consuming the given bytes), `missing` (needs more data; complete lines were
already scheduled), `err` (parse error at the given offset from the starting
`msg->next`). -/
inductive TrlRes
  | done (consumed : Nat)
  | missing (consumed : Nat)
  | err (pos : Nat)
deriving DecidableEq

/-- Shift positions by the bytes of already-consumed lines. -/
def shiftTrl : TrlRes → Nat → TrlRes
  | .done c, n => .done (c + n)
  | .missing c, n => .missing (c + n)
  | .err p, n => .err (p + n)

/-- Embedding of `http_forward_trailers` over the unread input starting at
`msg->next` (the ring wrap is represented by the byte list, as for the chunk
parser).  `p1 == b_ptr(buf, msg->next)` — the first CR-or-LF of the line
sitting at the line start — holds exactly when the line's first byte is CR
or LF. -/
def http_forward_trailers_run (ins : List Nat) : TrlRes :=
  match h : scanLine ins false with
  | .missing => .missing 0
  | .errCR p => .err p
  | .eol l =>
    if ins.head? = some 13 ∨ ins.head? = some 10 then .done (l + 1)
    else shiftTrl (http_forward_trailers_run (ins.drop (l + 1))) (l + 1)
termination_by ins.length
decreasing_by
  cases ins with
  | nil => simp [scanLine] at h
  | cons c rest => simp; omega

/-- The first line of the unread input, its terminating LF excluded. -/
def firstLine (ins : List Nat) : List Nat := ins.takeWhile (fun c => c ≠ 10)

/-- Number of CRs in the first line. -/
def lineCrs (ins : List Nat) : Nat :=
  ((firstLine ins).filter (fun c => c = 13)).length

/-- Whether the first line is complete (an LF follows it). -/
def lineHasLF (ins : List Nat) : Prop := (firstLine ins).length < ins.length

theorem firstLine_cons_13 (rest : List Nat) :
    firstLine (13 :: rest) = 13 :: firstLine rest := by
  rw [firstLine, firstLine, List.takeWhile_cons]
  simp

theorem firstLine_cons_other (c : Nat) (rest : List Nat) (h10 : c ≠ 10) :
    firstLine (c :: rest) = c :: firstLine rest := by
  rw [firstLine, firstLine, List.takeWhile_cons]
  simp [h10]

theorem lineCrs_cons_13 (rest : List Nat) :
    lineCrs (13 :: rest) = lineCrs rest + 1 := by
  rw [lineCrs, lineCrs, firstLine_cons_13, List.filter_cons]
  simp

theorem lineCrs_cons_other (c : Nat) (rest : List Nat) (h10 : c ≠ 10) (h13 : c ≠ 13) :
    lineCrs (c :: rest) = lineCrs rest := by
  rw [lineCrs, lineCrs, firstLine_cons_other c rest h10, List.filter_cons]
  simp [h13]

theorem scanLine_err (ins : List Nat) (seen : Bool)
    (h : (if seen then 1 else 2) ≤ lineCrs ins) :
    ∃ p, p < (firstLine ins).length ∧ scanLine ins seen = LineScan.errCR p := by
  induction ins generalizing seen with
  | nil =>
    rw [show lineCrs [] = 0 from by simp [lineCrs, firstLine]] at h
    cases seen <;> simp_all
  | cons c rest ih =>
    by_cases h10 : c = 10
    · subst h10
      rw [show lineCrs (10 :: rest) = 0 from by simp [lineCrs, firstLine]] at h
      cases seen <;> simp_all
    · by_cases h13 : c = 13
      · subst h13
        rw [lineCrs_cons_13] at h
        cases seen with
        | true =>
          refine ⟨0, ?_, ?_⟩
          · rw [firstLine_cons_13]
            simp
          · simp [scanLine]
        | false =>
          simp only [if_neg (by simp : ¬ false = true)] at h
          obtain ⟨p, hp, hsc⟩ := ih true (by simp; omega)
          refine ⟨p + 1, ?_, ?_⟩
          · rw [firstLine_cons_13]
            simp
            omega
          · rw [show scanLine (13 :: rest) false = shiftLine (scanLine rest true) 1
                  from by simp [scanLine]]
            rw [hsc]
            rfl
      · rw [lineCrs_cons_other c rest h10 h13] at h
        obtain ⟨p, hp, hsc⟩ := ih seen h
        refine ⟨p + 1, ?_, ?_⟩
        · rw [firstLine_cons_other c rest h10]
          simp
          omega
        · rw [show scanLine (c :: rest) seen = shiftLine (scanLine rest seen) 1
                from by simp [scanLine, h10, h13]]
          rw [hsc]
          rfl

theorem scanLine_ok (ins : List Nat) (seen : Bool)
    (hcr : lineCrs ins ≤ (if seen then 0 else 1))
    (hlf : lineHasLF ins) :
    scanLine ins seen = LineScan.eol (firstLine ins).length := by
  induction ins generalizing seen with
  | nil =>
    rw [lineHasLF] at hlf
    simp [firstLine] at hlf
  | cons c rest ih =>
    by_cases h10 : c = 10
    · subst h10
      rw [show firstLine (10 :: rest) = [] from by simp [firstLine]]
      simp [scanLine]
    · by_cases h13 : c = 13
      · subst h13
        rw [lineCrs_cons_13] at hcr
        cases seen with
        | true => simp at hcr
        | false =>
          simp only [if_neg (by simp : ¬ false = true)] at hcr
          have hlf2 : lineHasLF rest := by
            rw [lineHasLF] at hlf ⊢
            rw [firstLine_cons_13] at hlf
            simp at hlf
            omega
          rw [show scanLine (13 :: rest) false = shiftLine (scanLine rest true) 1
                from by simp [scanLine]]
          rw [ih true (by simp; omega) hlf2, firstLine_cons_13]
          rfl
      · rw [lineCrs_cons_other c rest h10 h13] at hcr
        have hlf2 : lineHasLF rest := by
          rw [lineHasLF] at hlf ⊢
          rw [firstLine_cons_other c rest h10] at hlf
          simp at hlf
          omega
        rw [show scanLine (c :: rest) seen = shiftLine (scanLine rest seen) 1
              from by simp [scanLine, h10, h13]]
        rw [ih seen hcr hlf2, firstLine_cons_other c rest h10]
        rfl

theorem scanLine_miss (ins : List Nat) (seen : Bool)
    (hcr : lineCrs ins ≤ (if seen then 0 else 1))
    (hlf : ¬ lineHasLF ins) :
    scanLine ins seen = LineScan.missing := by
  induction ins generalizing seen with
  | nil => simp [scanLine]
  | cons c rest ih =>
    by_cases h10 : c = 10
    · subst h10
      refine absurd ?_ hlf
      rw [lineHasLF]
      rw [show firstLine (10 :: rest) = [] from by simp [firstLine]]
      simp
    · by_cases h13 : c = 13
      · subst h13
        rw [lineCrs_cons_13] at hcr
        cases seen with
        | true => simp at hcr
        | false =>
          simp only [if_neg (by simp : ¬ false = true)] at hcr
          have hlf2 : ¬ lineHasLF rest := by
            rw [lineHasLF] at hlf ⊢
            rw [firstLine_cons_13] at hlf
            simp at hlf
            omega
          rw [show scanLine (13 :: rest) false = shiftLine (scanLine rest true) 1
                from by simp [scanLine]]
          rw [ih true (by simp; omega) hlf2]
          rfl
      · rw [lineCrs_cons_other c rest h10 h13] at hcr
        have hlf2 : ¬ lineHasLF rest := by
          rw [lineHasLF] at hlf ⊢
          rw [firstLine_cons_other c rest h10] at hlf
          simp at hlf
          omega
        rw [show scanLine (c :: rest) seen = shiftLine (scanLine rest seen) 1
              from by simp [scanLine, h10, h13]]
        rw [ih seen hcr hlf2]
        rfl

/-- Counterexample to C6 as stated: the trailer bytes "a CR b LF LF" contain
a lone CR (offset 1) not followed by an LF on the same line, yet the source
forwards that line without error and finishes at the following empty line;
and on "CR a LF" the source declares DONE at a line that is not empty (its
first CR-or-LF position is the line start). -/
theorem claim_C6_counterexample :
    http_forward_trailers_run [97, 13, 98, 10, 10] = TrlRes.done 5 ∧
    [97, 13, 98, 10, 10].get? 1 = some 13 ∧ [97, 13, 98, 10, 10].get? 2 = some 98 ∧
    http_forward_trailers_run [13, 97, 10] = TrlRes.done 3 := by
  refine ⟨?_, by decide, by decide, ?_⟩
  · rw [http_forward_trailers_run]
    simp [scanLine, shiftLine, shiftTrl]
    rw [http_forward_trailers_run]
    simp [scanLine, shiftLine, shiftTrl]
  · rw [http_forward_trailers_run]
    simp [scanLine, shiftLine, shiftTrl]

/-- C6 (amended): `http_forward_trailers` moves to DONE exactly when it
reaches a line whose first byte is LF or CR — the empty lines `LF` and
`CR LF`, but also a line `CR x..x LF` with bytes between the CR and the LF —
and a parse error occurs exactly when a second CR appears in a line before
its LF; a complete line starting with any other byte and containing at most
one CR is scheduled for forwarding and the scan moves to the next line, and
an incomplete line (no LF yet, no error yet) waits for more data. -/
theorem claim_C6_forward_trailers (ins : List Nat) :
    (ins.head? = some 10 → http_forward_trailers_run ins = TrlRes.done 1) ∧
    (ins.head? = some 13 → lineCrs ins ≤ 1 → lineHasLF ins →
      http_forward_trailers_run ins = TrlRes.done ((firstLine ins).length + 1)) ∧
    (2 ≤ lineCrs ins →
      ∃ p, p < (firstLine ins).length ∧
        http_forward_trailers_run ins = TrlRes.err p) ∧
    ((∀ c, ins.head? = some c → c ≠ 13 ∧ c ≠ 10) → lineCrs ins ≤ 1 → lineHasLF ins →
      http_forward_trailers_run ins =
        shiftTrl (http_forward_trailers_run (ins.drop ((firstLine ins).length + 1)))
          ((firstLine ins).length + 1)) ∧
    (lineCrs ins ≤ 1 → ¬ lineHasLF ins →
      http_forward_trailers_run ins = TrlRes.missing 0) := by
  refine ⟨?_, ?_, ?_, ?_, ?_⟩
  · intro h10
    obtain ⟨rest, hins⟩ : ∃ rest, ins = 10 :: rest := by
      cases ins <;> simp_all
    subst hins
    rw [http_forward_trailers_run]
    simp [scanLine]
  · intro h13 hcr hlf
    have hsc : scanLine ins false = LineScan.eol (firstLine ins).length :=
      scanLine_ok ins false (by simpa) hlf
    rw [http_forward_trailers_run]
    split <;> rename_i harm <;> rw [hsc] at harm <;> simp at harm
    rename_i l
    subst harm
    simp [h13]
  · intro hcr
    obtain ⟨p, hp, hsc⟩ := scanLine_err ins false (by simpa)
    refine ⟨p, hp, ?_⟩
    rw [http_forward_trailers_run]
    split <;> rename_i harm <;> rw [hsc] at harm <;> simp at harm
    subst harm
    rfl
  · intro hhead hcr hlf
    have hsc : scanLine ins false = LineScan.eol (firstLine ins).length :=
      scanLine_ok ins false (by simpa) hlf
    have hne : ¬ (ins.head? = some 13 ∨ ins.head? = some 10) := by
      rintro (h | h)
      · exact (hhead 13 h).1 rfl
      · exact (hhead 10 h).2 rfl
    rw [http_forward_trailers_run]
    split <;> rename_i harm <;> rw [hsc] at harm <;> simp at harm
    rename_i l
    subst harm
    rw [if_neg hne]
  · intro hcr hlf
    have hsc : scanLine ins false = LineScan.missing :=
      scanLine_miss ins false (by simpa) hlf
    rw [http_forward_trailers_run]
    split <;> rename_i harm <;> rw [hsc] at harm <;> simp_all

/-! ## Header value removal (src: proto_http.c, `http_remove_header2`) -/

/-- One `hdr_idx_elem`: value length, CR flag (0 or 1), next entry. -/
structure HdrElem where
  len : Nat
  cr : Nat
  next : Nat
deriving DecidableEq

/-- The `hdr_idx` fields `http_remove_header2` touches: the entry array
(index 0 is the sentinel), the used count and the tail index. -/
structure HdrIdx where
  v : List HdrElem
  used : Int
  tail : Nat
deriving DecidableEq

/-- A `hdr_ctx` as produced by `http_find_header2`: offsets are relative to
the buffer (`line` is the offset of the start of the header line; the C
field is a pointer). -/
structure HdrCtx where
  line : Nat
  del : Nat
  val : Nat
  vlen : Nat
  tws : Nat
  idx : Nat
  prev : Nat
deriving DecidableEq

/-- The message fields `http_msg_move_end` adjusts, plus the buffer. -/
structure MsgOffsets where
  buf : List Nat
  eoh : Nat
  sov : Nat
  next : Nat
deriving DecidableEq

/-- Array read `idx->v[i]`. -/
def hdrAt (v : List HdrElem) (i : Nat) : HdrElem := v.getD i ⟨0, 0, 0⟩

/-- Modelled from the spec (§4.1 `replace`): buffer.c is not provided.
Deleting `[fro, to)` with no replacement text returns the new buffer and the
signed displacement `0 - (to - fro)`. -/
def buffer_replace2_del (buf : List Nat) (fro upto : Nat) : List Nat × Int :=
  (buf.take fro ++ buf.drop upto, (fro : Int) - (upto : Int))

/-- Modelled from the spec (§4.2 invariant: "all entry lengths and the
message's `eoh` are updated by the returned delta"): the `http_msg_move_end`
inline of proto_http.h is not provided; it applies the displacement to the
offsets that sit beyond the edit (`eoh`, `sov`, `next`). -/
def http_msg_move_end (m : MsgOffsets) (delta : Int) : MsgOffsets :=
  { m with
      eoh := ((m.eoh : Int) + delta).toNat,
      sov := ((m.sov : Int) + delta).toNat,
      next := ((m.next : Int) + delta).toNat }

/-- Result of `http_remove_header2`: the updated message, index and context,
the returned index, and the displacement the buffer edit produced. -/
structure RemoveOut where
  msg : MsgOffsets
  idx : HdrIdx
  ctx : HdrCtx
  ret : Nat
  delta : Int
deriving DecidableEq

/-- Embedding of `http_remove_header2`. -/
def http_remove_header2 (msg : MsgOffsets) (idx : HdrIdx) (ctx : HdrCtx) : RemoveOut :=
  let cur_idx := ctx.idx
  if cur_idx = 0 then ⟨msg, idx, ctx, 0, 0⟩
  else
    let hdr := hdrAt idx.v cur_idx
    let sol := ctx.line
    if msg.buf.getD (sol + ctx.del) 0 = 58 ∧ ctx.val + ctx.vlen + ctx.tws = hdr.len then
      -- the only value of the header: remove the whole line with its CR/LF
      let br := buffer_replace2_del msg.buf sol (sol + hdr.len + hdr.cr + 1)
      let msg2 := http_msg_move_end { msg with buf := br.1 } br.2
      let prevLen := (hdrAt idx.v ctx.prev).len
      let v1 := idx.v.set cur_idx { hdr with len := 0 }
      let v2 := v1.set ctx.prev { hdrAt v1 ctx.prev with next := hdr.next }
      let tl := if idx.tail = cur_idx then ctx.prev else idx.tail
      let ctx2 := { ctx with
                      idx := ctx.prev,
                      line := sol - (prevLen + hdr.cr + 1),
                      val := prevLen,
                      tws := 0,
                      vlen := 0 }
      ⟨msg2, ⟨v2, idx.used - 1, tl⟩, ctx2, ctx.prev, br.2⟩
    else
      -- several values: remove this one plus one surrounding comma
      let skip_comma := if ctx.val + ctx.vlen + ctx.tws = hdr.len then 0 else 1
      let br := buffer_replace2_del msg.buf (sol + ctx.del + skip_comma)
                  (sol + ctx.val + ctx.vlen + ctx.tws + skip_comma)
      let msg2 := http_msg_move_end { msg with buf := br.1 } br.2
      let v2 := idx.v.set cur_idx { hdr with len := ((hdr.len : Int) + br.2).toNat }
      let ctx2 := { ctx with val := ctx.del, tws := 0, vlen := 0 }
      ⟨msg2, { idx with v := v2 }, ctx2, cur_idx, br.2⟩

theorem hdrAt_set_self (v : List HdrElem) (i : Nat) (e : HdrElem) (h : i < v.length) :
    hdrAt (v.set i e) i = e := by
  rw [hdrAt, List.getD_eq_getElem?_getD, List.getElem?_set_self (by simpa using h)]
  rfl

theorem hdrAt_set_ne (v : List HdrElem) (i j : Nat) (e : HdrElem) (h : i ≠ j) :
    hdrAt (v.set i e) j = hdrAt v j := by
  rw [hdrAt, List.getD_eq_getElem?_getD, List.getElem?_set_ne h, hdrAt,
    List.getD_eq_getElem?_getD]

/-- Concrete sole-value removal instance: buffer "A: b CR LF CR LF", one
real header entry of length 4 with CRLF, context as `http_find_header2`
returns it. -/
def c7msg : MsgOffsets := ⟨[65, 58, 32, 98, 13, 10, 13, 10], 6, 8, 8⟩

/-- Index for the counterexample: sentinel plus the single header entry. -/
def c7idx : HdrIdx := ⟨[⟨0, 0, 1⟩, ⟨4, 1, 0⟩], 2, 1⟩

/-- Context for the counterexample: the sole value of the only header. -/
def c7ctx : HdrCtx := ⟨0, 1, 3, 1, 0, 1, 0⟩

/-- Counterexample to C7 as stated: removing the sole value removes the
whole line and the displacement is applied to `eoh`, but the entry's length
is zeroed to mark the slot free — the displacement is NOT applied to the
entry length (4 + (-6) ≠ 0). -/
theorem claim_C7_counterexample :
    ((hdrAt (http_remove_header2 c7msg c7idx c7ctx).idx.v 1).len : Int)
      ≠ ((hdrAt c7idx.v 1).len : Int) + (http_remove_header2 c7msg c7idx c7ctx).delta ∧
    ((http_remove_header2 c7msg c7idx c7ctx).msg.eoh : Int)
      = (c7msg.eoh : Int) + (http_remove_header2 c7msg c7idx c7ctx).delta ∧
    (http_remove_header2 c7msg c7idx c7ctx).msg.buf = [13, 10] ∧
    (http_remove_header2 c7msg c7idx c7ctx).idx.used = c7idx.used - 1 := by
  decide

/-- C7 (amended): under a well-formed find context, removing the sole value
of a header deletes the entire line including its CR/LF, decrements the used
count, unlinks the entry (the predecessor inherits its successor) and marks
it free by zeroing its length — the displacement is applied to `eoh` but not
to the freed entry's length; removing one of several values deletes exactly
the value with one surrounding comma, applies the displacement to the edited
entry's length and to `eoh`, and leaves the used count alone. -/
theorem claim_C7_remove_header (msg : MsgOffsets) (idx : HdrIdx) (ctx : HdrCtx)
    (h0 : ctx.idx ≠ 0)
    (hix : ctx.idx < idx.v.length)
    (hprev : ctx.prev < idx.v.length)
    (hpc : ctx.prev ≠ ctx.idx)
    (hdel : ctx.del ≤ ctx.val + ctx.vlen + ctx.tws)
    (hval : ctx.val + ctx.vlen + ctx.tws ≤ (hdrAt idx.v ctx.idx).len)
    (hroom : (hdrAt idx.v ctx.idx).len + (hdrAt idx.v ctx.idx).cr + 1 ≤ msg.eoh) :
    (msg.buf.getD (ctx.line + ctx.del) 0 = 58 ∧
       ctx.val + ctx.vlen + ctx.tws = (hdrAt idx.v ctx.idx).len →
      (http_remove_header2 msg idx ctx).delta
          = -(((hdrAt idx.v ctx.idx).len : Int) + (hdrAt idx.v ctx.idx).cr + 1) ∧
      (http_remove_header2 msg idx ctx).msg.buf
          = msg.buf.take ctx.line
            ++ msg.buf.drop (ctx.line + (hdrAt idx.v ctx.idx).len
                + (hdrAt idx.v ctx.idx).cr + 1) ∧
      (http_remove_header2 msg idx ctx).idx.used = idx.used - 1 ∧
      (hdrAt (http_remove_header2 msg idx ctx).idx.v ctx.idx).len = 0 ∧
      (hdrAt (http_remove_header2 msg idx ctx).idx.v ctx.prev).next
          = (hdrAt idx.v ctx.idx).next ∧
      ((http_remove_header2 msg idx ctx).msg.eoh : Int)
          = (msg.eoh : Int) + (http_remove_header2 msg idx ctx).delta) ∧
    (¬ (msg.buf.getD (ctx.line + ctx.del) 0 = 58 ∧
          ctx.val + ctx.vlen + ctx.tws = (hdrAt idx.v ctx.idx).len) →
      (http_remove_header2 msg idx ctx).delta
          = (ctx.del : Int) - ((ctx.val : Int) + ctx.vlen + ctx.tws) ∧
      (http_remove_header2 msg idx ctx).msg.buf
          = msg.buf.take (ctx.line + ctx.del
              + (if ctx.val + ctx.vlen + ctx.tws = (hdrAt idx.v ctx.idx).len then 0 else 1))
            ++ msg.buf.drop (ctx.line + ctx.val + ctx.vlen + ctx.tws
              + (if ctx.val + ctx.vlen + ctx.tws = (hdrAt idx.v ctx.idx).len then 0 else 1)) ∧
      (http_remove_header2 msg idx ctx).idx.used = idx.used ∧
      ((hdrAt (http_remove_header2 msg idx ctx).idx.v ctx.idx).len : Int)
          = ((hdrAt idx.v ctx.idx).len : Int) + (http_remove_header2 msg idx ctx).delta ∧
      ((http_remove_header2 msg idx ctx).msg.eoh : Int)
          = (msg.eoh : Int) + (http_remove_header2 msg idx ctx).delta) := by
  constructor
  · intro hs
    rw [http_remove_header2]
    simp only [if_neg h0, if_pos hs, buffer_replace2_del, http_msg_move_end]
    refine ⟨by push_cast; ring, trivial, trivial, ?_, ?_, ?_⟩
    · rw [hdrAt_set_ne _ _ _ _ hpc, hdrAt_set_self _ _ _ hix]
    · rw [hdrAt_set_self _ _ _ (by simpa using hprev)]
    · push_cast
      omega
  · intro hs
    rw [http_remove_header2]
    simp only [if_neg h0, if_neg hs, buffer_replace2_del, http_msg_move_end]
    refine ⟨by push_cast; ring, trivial, trivial, ?_, ?_⟩
    · rw [hdrAt_set_self _ _ _ hix]
      push_cast
      omega
    · push_cast
      split_ifs <;> omega

/-- Witness for C7 at the concrete sole-value instance: the line is removed,
the used count drops and `eoh` moves by the returned displacement. -/
theorem claim_C7_witness :
    (http_remove_header2 c7msg c7idx c7ctx).idx.used = c7idx.used - 1 ∧
    ((http_remove_header2 c7msg c7idx c7ctx).msg.eoh : Int)
      = (c7msg.eoh : Int) + (http_remove_header2 c7msg c7idx c7ctx).delta := by
  have h := (claim_C7_remove_header c7msg c7idx c7ctx (by decide) (by decide) (by decide)
      (by decide) (by decide) (by decide) (by decide)).1 (by decide)
  exact ⟨h.2.2.1, h.2.2.2.2.2⟩


/-! ## Response compression selection (src: proto_http.c,
`select_compression_response_header`) -/

/-- ASCII bytes of a string literal. -/
def str (s : String) : List Nat := s.data.map Char.toNat

/-- ASCII lower-casing of one byte, as `strncasecmp` compares. -/
def lowerByte (c : Nat) : Nat := if 65 ≤ c ∧ c ≤ 90 then c + 32 else c

/-- ASCII lower-casing of a byte string. -/
def lowerSeq (l : List Nat) : List Nat := l.map lowerByte

/-- Case-insensitive equality (`strcasecmp == 0`). -/
def ciEq (a b : List Nat) : Bool := lowerSeq a == lowerSeq b

/-- Case-insensitive "begins with" (`strncasecmp(v, pre, |pre|) == 0` with
the `vlen >= |pre|` guard the source always pairs it with). -/
def ciStartsWith (v pre : List Nat) : Bool :=
  decide (pre.length ≤ v.length) && (lowerSeq (v.take pre.length) == lowerSeq pre)

/-- Modelled from the spec: `word_match` (its definition is not in the
provided sources) checks that the word appears as a complete comma- or
whitespace-delimited word of the value, case-insensitively. -/
def word_match (v w : List Nat) : Bool :=
  ((v.splitOnP (fun c => c = 44 || c = 32 || c = 9)).filter (fun t => ¬ t.isEmpty)).any
    (fun t => ciEq t w)

/-- The compression algorithms of `comp_algos[]`. -/
inductive CompAlgo
  | identity
  | deflateAlg
  | gzip
deriving DecidableEq

/-- The `name` field of a `comp_algo`. -/
def CompAlgo.algName : CompAlgo → List Nat
  | .identity => str "identity"
  | .deflateAlg => str "deflate"
  | .gzip => str "gzip"

/-- Everything `select_compression_response_header` reads: the selected
request algorithm, the response flags `HTTP_MSGF_VER_11`,
`HTTP_MSGF_TE_CHNK` and `HTTP_MSGF_CNT_LEN`, `body_len`, the status, the
response headers as (name, value) lines in order, the backend and frontend
content-type whitelists, the measured global compression-rate excess, the
idle percentage against its threshold, and whether the algorithm's `init`
fails. -/
structure CompCfg where
  comp_algo : Option CompAlgo
  ver11 : Bool
  te_chnk : Bool
  cnt_len : Bool
  body_len : Nat
  status : Nat
  headers : List (List Nat × List Nat)
  be_types : List (List Nat)
  fe_types : List (List Nat)
  rate_lim_exceeded : Bool
  idle_pct : Nat
  compress_min_idle : Nat
  init_fails : Bool
deriving DecidableEq

/-- First header with the given (case-insensitive) name
(`http_find_header2` from `ctx.idx = 0`). -/
def findHdr (hs : List (List Nat × List Nat)) (name : List Nat) : Option (List Nat) :=
  (hs.find? (fun h => ciEq h.fst name)).map Prod.snd

/-- Drop the first header with the given name (`http_remove_header2` after a
successful find). -/
def removeFirstHdr : List (List Nat × List Nat) → List Nat → List (List Nat × List Nat)
  | [], _ => []
  | h :: t, name => if ciEq h.fst name then t else h :: removeFirstHdr t name

/-- The content-type whitelist in effect: the backend has priority, the
frontend is the fallback (`(s->be->comp && (comp_type = s->be->comp->types))
|| (s->fe->comp && (comp_type = s->fe->comp->types))`). -/
def ctWhitelist (cfg : CompCfg) : List (List Nat) :=
  if ¬ cfg.be_types.isEmpty then cfg.be_types else cfg.fe_types

/-- The Content-Type refusals: a value beginning with "multipart", or a
configured whitelist none of whose types the value begins with; without a
Content-Type header, any configured whitelist refuses. -/
def ctRefuses (cfg : CompCfg) : Bool :=
  match findHdr cfg.headers (str "Content-Type") with
  | some v =>
      ciStartsWith v (str "multipart") ||
      (¬ (ctWhitelist cfg).isEmpty && ¬ (ctWhitelist cfg).any (fun t => ciStartsWith v t))
  | none => ¬ cfg.be_types.isEmpty || ¬ cfg.fe_types.isEmpty

/-- Header edits applied on success: strip the first Content-Length when the
message advertised one, add `Transfer-Encoding: chunked` when the response
is not already chunked, add `Content-Encoding: <name>` unless the algorithm
is identity (`add_data != identity_add_data`). -/
def compSuccessHeaders (cfg : CompCfg) (algo : CompAlgo) : List (List Nat × List Nat) :=
  let h1 := if cfg.cnt_len then removeFirstHdr cfg.headers (str "Content-Length")
            else cfg.headers
  let h2 := if ¬ cfg.te_chnk then h1 ++ [(str "Transfer-Encoding", str "chunked")] else h1
  if algo ≠ CompAlgo.identity then h2 ++ [(str "Content-Encoding", algo.algName)] else h2

/-- Embedding of `select_compression_response_header`: `none` is the `fail:`
exit (return 0 with `s->comp_algo = NULL`, headers untouched), `some hs` the
success exit with the edited headers. -/
def select_compression_response_header (cfg : CompCfg) : Option (List (List Nat × List Nat)) :=
  match cfg.comp_algo with
  | none => none
  | some algo =>
    if ¬ cfg.ver11 then none
    else if cfg.status ≠ 200 then none
    else if ¬ cfg.te_chnk ∧ cfg.body_len = 0 then none
    else if (findHdr cfg.headers (str "Content-Encoding")).isSome then none
    else if cfg.headers.any (fun h => ciEq h.fst (str "Cache-Control") &&
              word_match h.snd (str "no-transform")) then none
    else if ctRefuses cfg then none
    else if cfg.rate_lim_exceeded then none
    else if cfg.idle_pct < cfg.compress_min_idle then none
    else if cfg.init_fails then none
    else some (compSuccessHeaders cfg algo)

/-- Whether the Content-Type value begins with "multipart" (false when the
header is absent). -/
def ctMultipart (cfg : CompCfg) : Bool :=
  match findHdr cfg.headers (str "Content-Type") with
  | some v => ciStartsWith v (str "multipart")
  | none => false

/-- Whether a configured whitelist exists and does not list the response
type (with no Content-Type header, any configured whitelist refuses). -/
def ctNotListed (cfg : CompCfg) : Bool :=
  match findHdr cfg.headers (str "Content-Type") with
  | some v => ¬ (ctWhitelist cfg).isEmpty && ¬ (ctWhitelist cfg).any (fun t => ciStartsWith v t)
  | none => ¬ cfg.be_types.isEmpty || ¬ cfg.fe_types.isEmpty

theorem ctRefuses_iff (cfg : CompCfg) :
    ctRefuses cfg = true ↔ (ctMultipart cfg = true ∨ ctNotListed cfg = true) := by
  rw [ctRefuses, ctMultipart, ctNotListed]
  cases findHdr cfg.headers (str "Content-Type") <;> simp

/-- The refusal conditions exactly as claim C5 lists them. -/
def c5ListedRefusal (cfg : CompCfg) : Prop :=
  cfg.comp_algo = none ∨ cfg.ver11 = false ∨ cfg.status ≠ 200 ∨
  (cfg.te_chnk = false ∧ cfg.body_len = 0) ∨
  (findHdr cfg.headers (str "Content-Encoding")).isSome = true ∨
  cfg.headers.any (fun h => ciEq h.fst (str "Cache-Control") &&
    word_match h.snd (str "no-transform")) = true ∨
  ctMultipart cfg = true ∨ ctNotListed cfg = true ∨
  cfg.idle_pct < cfg.compress_min_idle

instance (cfg : CompCfg) : Decidable (c5ListedRefusal cfg) := by
  rw [c5ListedRefusal]
  infer_instance

/-- A configuration that passes every refusal condition claim C5 lists, with
the global compression rate limit exceeded. -/
def c5cfg : CompCfg where
  comp_algo := some CompAlgo.gzip
  ver11 := true
  te_chnk := true
  cnt_len := false
  body_len := 1
  status := 200
  headers := [(str "Content-Type", str "text/html")]
  be_types := []
  fe_types := []
  rate_lim_exceeded := true
  idle_pct := 100
  compress_min_idle := 0
  init_fails := false

/-- Counterexample to C5 as stated: when the measured global compression
input rate exceeds `comp_rate_lim`, the source refuses (`goto fail`) even
though none of the claim's listed refusal conditions holds. -/
theorem claim_C5_counterexample :
    select_compression_response_header c5cfg = none ∧ ¬ c5ListedRefusal c5cfg := by
  decide

/-- The refusal conditions the source tests after finding a configured
algorithm, verbatim and in order. -/
def c5CodeRefuses (cfg : CompCfg) : Prop :=
  ¬ cfg.ver11 ∨ cfg.status ≠ 200 ∨ (¬ cfg.te_chnk ∧ cfg.body_len = 0) ∨
  (findHdr cfg.headers (str "Content-Encoding")).isSome = true ∨
  cfg.headers.any (fun h => ciEq h.fst (str "Cache-Control") &&
    word_match h.snd (str "no-transform")) = true ∨
  ctRefuses cfg = true ∨ cfg.rate_lim_exceeded = true ∨
  cfg.idle_pct < cfg.compress_min_idle ∨ cfg.init_fails = true

theorem select_none_iff (cfg : CompCfg) :
    select_compression_response_header cfg = none ↔
      (cfg.comp_algo = none ∨ c5CodeRefuses cfg) := by
  cases hca : cfg.comp_algo with
  | none => simp [select_compression_response_header, hca]
  | some algo =>
    simp only [select_compression_response_header, hca, c5CodeRefuses]
    by_cases h1 : ¬ cfg.ver11
    · rw [if_pos h1]
      exact iff_of_true rfl (Or.inr (Or.inl h1))
    · rw [if_neg h1]
      by_cases h2 : cfg.status ≠ 200
      · rw [if_pos h2]
        exact iff_of_true rfl (Or.inr (Or.inr (Or.inl h2)))
      · rw [if_neg h2]
        by_cases h3 : ¬ cfg.te_chnk ∧ cfg.body_len = 0
        · rw [if_pos h3]
          exact iff_of_true rfl (Or.inr (Or.inr (Or.inr (Or.inl h3))))
        · rw [if_neg h3]
          by_cases h4 : (findHdr cfg.headers (str "Content-Encoding")).isSome = true
          · rw [if_pos h4]
            exact iff_of_true rfl (Or.inr (Or.inr (Or.inr (Or.inr (Or.inl h4)))))
          · rw [if_neg h4]
            by_cases h5 : cfg.headers.any (fun h => ciEq h.fst (str "Cache-Control") &&
              word_match h.snd (str "no-transform")) = true
            · rw [if_pos h5]
              exact iff_of_true rfl
                (Or.inr (Or.inr (Or.inr (Or.inr (Or.inr (Or.inl h5))))))
            · rw [if_neg h5]
              by_cases h6 : ctRefuses cfg = true
              · rw [if_pos h6]
                exact iff_of_true rfl
                  (Or.inr (Or.inr (Or.inr (Or.inr (Or.inr (Or.inr (Or.inl h6)))))))
              · rw [if_neg h6]
                by_cases h7 : cfg.rate_lim_exceeded = true
                · rw [if_pos h7]
                  exact iff_of_true rfl
                    (Or.inr (Or.inr (Or.inr (Or.inr (Or.inr (Or.inr
                      (Or.inr (Or.inl h7))))))))
                · rw [if_neg h7]
                  by_cases h8 : cfg.idle_pct < cfg.compress_min_idle
                  · rw [if_pos h8]
                    exact iff_of_true rfl
                      (Or.inr (Or.inr (Or.inr (Or.inr (Or.inr (Or.inr
                        (Or.inr (Or.inr (Or.inl h8)))))))))
                  · rw [if_neg h8]
                    by_cases h9 : cfg.init_fails = true
                    · rw [if_pos h9]
                      exact iff_of_true rfl
                        (Or.inr (Or.inr (Or.inr (Or.inr (Or.inr (Or.inr
                          (Or.inr (Or.inr (Or.inr h9)))))))))
                    · rw [if_neg h9]
                      constructor
                      · intro hx
                        exact absurd hx (by simp)
                      · rintro (hx | hx | hx | hx | hx | hx | hx | hx | hx | hx)
                        · exact absurd hx (by simp)
                        · exact absurd hx h1
                        · exact absurd hx h2
                        · exact absurd hx h3
                        · exact absurd hx h4
                        · exact absurd hx h5
                        · exact absurd hx h6
                        · exact absurd hx h7
                        · exact absurd hx h8
                        · exact absurd hx h9

theorem select_some_form (cfg : CompCfg) (algo : CompAlgo)
    (hca : cfg.comp_algo = some algo) :
    select_compression_response_header cfg = none ∨
    select_compression_response_header cfg = some (compSuccessHeaders cfg algo) := by
  simp only [select_compression_response_header, hca]
  split_ifs <;> simp

/-- C5 (amended): selection fails — leaving the headers unchanged and
clearing the selected algorithm — exactly when one of the listed refusal
conditions holds, or the global compression rate limit is exceeded, or the
algorithm's init fails; on success it strips the first Content-Length (when
one was advertised), adds `Transfer-Encoding: chunked` when the response is
not already chunked, and adds `Content-Encoding: <name>` unless the
algorithm is identity. -/
theorem claim_C5_select_compression (cfg : CompCfg) :
    (select_compression_response_header cfg = none ↔
      (c5ListedRefusal cfg ∨ cfg.rate_lim_exceeded = true ∨ cfg.init_fails = true)) ∧
    (∀ algo, cfg.comp_algo = some algo →
      select_compression_response_header cfg ≠ none →
      select_compression_response_header cfg = some (compSuccessHeaders cfg algo)) := by
  constructor
  · rw [select_none_iff, c5CodeRefuses, c5ListedRefusal]
    simp only [Bool.not_eq_true, ctRefuses_iff]
    tauto
  · intro algo hca hne
    rcases select_some_form cfg algo hca with h | h
    · exact absurd h hne
    · exact h



/-! ## PROXY protocol v1 reception (src: src/frontend.c, `conn_recv_proxy`) -/

/-- Modelled from the spec: `read_uint` (its definition is not in the provided
sources) reads an unsigned decimal integer, consuming digits up to the first
non-digit or the limit, with 32-bit unsigned wraparound; the worker carries
the accumulator. -/
def read_uint_go : List Nat → Nat → Nat × List Nat
  | [], acc => (acc, [])
  | c :: t, acc =>
    if 48 ≤ c ∧ c ≤ 57 then read_uint_go t ((acc * 10 + (c - 48)) % 4294967296)
    else (acc, c :: t)

/-- Modelled from the spec: `read_uint` starting from accumulator 0. -/
def read_uint (l : List Nat) : Nat × List Nat := read_uint_go l 0

/-- Modelled from the spec: `inetaddr_host_lim_ret` (its definition is not in
the provided sources) reads a dotted-quad IPv4 address `a.b.c.d` — up to four
decimal components separated by `.`, each taken modulo 256 — stopping at the
first byte that continues neither a component nor the quad, and returns the
host-order 32-bit value together with the unconsumed input. -/
def inetaddr_host_lim_ret (l : List Nat) : Nat × List Nat :=
  let p1 := read_uint l
  let v1 := p1.1 % 256 * 16777216
  match p1.2 with
  | 46 :: r1 =>
    let p2 := read_uint r1
    let v2 := v1 + p2.1 % 256 * 65536
    match p2.2 with
    | 46 :: r2 =>
      let p3 := read_uint r2
      let v3 := v2 + p3.1 % 256 * 256
      match p3.2 with
      | 46 :: r3 =>
        let p4 := read_uint r3
        (v3 + p4.1 % 256, p4.2)
      | r => (v3, r)
    | r => (v2, r)
  | r => (v1, r)

/-- A parsed connection address: family, address, port (the
`sockaddr_in`/`sockaddr_in6` the source fills). -/
inductive PxAddr
  | v4 (addr port : Nat)
  | v6 (addr : List Nat) (port : Nat)
deriving DecidableEq

/-- Outcome of `conn_recv_proxy`: wait for more data (`missing`), error
(`fail`), or success with the number of bytes consumed from the socket and
the two addresses stored into the connection. -/
inductive PxRes
  | missing
  | fail
  | done (consumed : Nat) (src dst : PxAddr)
deriving DecidableEq

/-- The `TCP4` branch of `conn_recv_proxy`: `line` starts right after
"PROXY TCP4 " (`r0 = buf.drop 11`), `len` is the peeked length; source
address, space, destination address, space, source port, space, destination
port, CRLF. -/
def tcp4Branch (len : Nat) (r0 : List Nat) : PxRes :=
  let ps := inetaddr_host_lim_ret r0
  match ps.2 with
  | [] => .missing
  | c1 :: r1 =>
    if c1 ≠ 32 then .fail
    else
      let pd := inetaddr_host_lim_ret r1
      match pd.2 with
      | [] => .missing
      | c2 :: r2 =>
        if c2 ≠ 32 then .fail
        else
          let pp := read_uint r2
          match pp.2 with
          | [] => .missing
          | c3 :: r3 =>
            if c3 ≠ 32 then .fail
            else
              let pq := read_uint r3
              match pq.2 with
              | c4 :: c5 :: r5 =>
                if c4 ≠ 13 then .fail
                else if c5 ≠ 10 then .fail
                else .done (len - r5.length) (.v4 ps.1 pp.1) (.v4 pd.1 pq.1)
              | _ => .missing

/-- Split at the first CR byte: `some (pre, after)` when a CR exists, with
`pre` the bytes before it and `after` the bytes after it. -/
def findCr : List Nat → Option (List Nat × List Nat)
  | [] => none
  | c :: t =>
    if c = 13 then some ([], t)
    else
      match findCr t with
      | some (p, a) => some (c :: p, a)
      | none => none

/-- The first three space-delimited cuts of the TCP6 line body: the source
records `dst_s`, `sport_s`, `dport_s` at the first three spaces only (later
spaces are merely zeroed), so the fourth piece keeps any remaining spaces. -/
def split3 (pre : List Nat) : Option (List Nat × List Nat × List Nat × List Nat) :=
  let s1 := pre.takeWhile (fun c => c != 32)
  match pre.dropWhile (fun c => c != 32) with
  | 32 :: r1 =>
    let s2 := r1.takeWhile (fun c => c != 32)
    match r1.dropWhile (fun c => c != 32) with
    | 32 :: r2 =>
      let s3 := r2.takeWhile (fun c => c != 32)
      match r2.dropWhile (fun c => c != 32) with
      | 32 :: r3 => some (s1, s2, s3, r3)
      | _ => none
    | _ => none
  | _ => none

/-- The `TCP6` branch of `conn_recv_proxy`: the source scans to the CRLF
zeroing spaces in place, requires the three delimiters, reads the two ports
with `read_uint` demanding a NUL right after each (end-of-token: a zeroed
space, a zeroed CR, or a literal NUL byte), and converts both addresses with
`inet_pton(AF_INET6, ...)`, abstracted here as the `pton6` parameter. -/
def tcp6Branch (pton6 : List Nat → Option (List Nat)) (len : Nat) (seg : List Nat) :
    PxRes :=
  match findCr seg with
  | none => .missing
  | some (pre, after) =>
    match after with
    | [] => .missing
    | c :: restl =>
      if c ≠ 10 then .fail
      else
        match split3 pre with
        | none => .fail
        | some (srcs, dsts, sports, dreg) =>
          let pp := read_uint sports
          if ¬ (pp.2 = [] ∨ pp.2.head? = some 0) then .fail
          else
            let pq := read_uint dreg
            if ¬ (pq.2 = [] ∨ pq.2.head? = some 0 ∨ pq.2.head? = some 32) then .fail
            else
              match pton6 (srcs.takeWhile (fun b => b != 0)) with
              | none => .fail
              | some sa =>
                match pton6 (dsts.takeWhile (fun b => b != 0)) with
                | none => .fail
                | some da =>
                  .done (len - restl.length) (.v6 sa pp.1) (.v6 da pq.1)

/-- Embedding of `conn_recv_proxy` over the peeked bytes `buf` (the `trash`
buffer, `len = buf.length`), with `inet_pton(AF_INET6, ...)` abstracted as
`pton6`. Note `!memcmp(line, "TCP4 ", 5) != 0` takes the branch exactly when
the bytes are equal, and no branch matches the family token `UNKNOWN`. -/
def conn_recv_proxy (pton6 : List Nat → Option (List Nat)) (buf : List Nat) : PxRes :=
  if buf.length < 6 then .missing
  else if buf.take 6 ≠ str "PROXY " then .fail
  else if buf.length < 18 then .missing
  else if (buf.drop 6).take 5 = str "TCP4 " then tcp4Branch buf.length (buf.drop 11)
  else if (buf.drop 6).take 5 = str "TCP6 " then tcp6Branch pton6 buf.length (buf.drop 11)
  else .fail

/-- Decimal rendering of a number, most significant digit first. -/
def decDigits (n : Nat) : List Nat :=
  if n = 0 then [48] else ((Nat.digits 10 n).reverse.map (fun d => d + 48))

/-- Dotted-quad rendering of an IPv4 address given componentwise. -/
def renderIp4 (a b c d : Nat) : List Nat :=
  decDigits a ++ 46 :: decDigits b ++ 46 :: decDigits c ++ 46 :: decDigits d

/-- A well-formed PROXY v1 TCP4 line from its numeric fields. -/
def pxline4 (a b c d e f g h p q : Nat) : List Nat :=
  str "PROXY TCP4 " ++ renderIp4 a b c d ++ 32 :: renderIp4 e f g h ++
    32 :: decDigits p ++ 32 :: decDigits q ++ [13, 10]

theorem read_uint_go_notdig (r : List Nat) (acc : Nat)
    (hr : ∀ c, r.head? = some c → ¬ (48 ≤ c ∧ c ≤ 57)) :
    read_uint_go r acc = (acc, r) := by
  cases r with
  | nil => rfl
  | cons c t =>
    rw [read_uint_go, if_neg (hr c rfl)]

theorem read_uint_go_digits (ds : List Nat) :
    ∀ acc (r : List Nat), (∀ d ∈ ds, d < 10) →
    (∀ c, r.head? = some c → ¬ (48 ≤ c ∧ c ≤ 57)) →
    read_uint_go (ds.map (fun d => d + 48) ++ r) acc =
      (ds.foldl (fun a d => (a * 10 + d) % 4294967296) acc, r) := by
  induction ds with
  | nil =>
    intro acc r _ hr
    simpa using read_uint_go_notdig r acc hr
  | cons d t ih =>
    intro acc r hd hr
    have hdlt : d < 10 := hd d (by simp)
    rw [List.map_cons, List.cons_append, read_uint_go,
      if_pos (by constructor <;> omega)]
    have hsub : d + 48 - 48 = d := by omega
    rw [hsub, ih _ r (fun x hx => hd x (by simp [hx])) hr]
    simp

theorem foldl_mul_add_congr (ds : List Nat) :
    ∀ x y, x % 4294967296 = y % 4294967296 →
    (ds.foldl (fun a d => a * 10 + d) x) % 4294967296 =
      (ds.foldl (fun a d => a * 10 + d) y) % 4294967296 := by
  induction ds with
  | nil => intro x y h; simpa using h
  | cons d t ih =>
    intro x y h
    rw [List.foldl_cons, List.foldl_cons]
    exact ih _ _ (by omega)

theorem foldl_mod_eq (ds : List Nat) :
    ∀ acc, acc < 4294967296 →
    ds.foldl (fun a d => (a * 10 + d) % 4294967296) acc =
      (ds.foldl (fun a d => a * 10 + d) acc) % 4294967296 := by
  induction ds with
  | nil => intro acc h; simp [Nat.mod_eq_of_lt h]
  | cons d t ih =>
    intro acc h
    rw [List.foldl_cons, List.foldl_cons, ih _ (Nat.mod_lt _ (by norm_num))]
    exact foldl_mul_add_congr t _ _ (by omega)

theorem foldl_reverse_digits (L : List Nat) :
    ∀ acc, L.reverse.foldl (fun a d => a * 10 + d) acc =
      acc * 10 ^ L.length + Nat.ofDigits 10 L := by
  induction L with
  | nil => intro acc; simp [Nat.ofDigits]
  | cons d t ih =>
    intro acc
    rw [List.reverse_cons, List.foldl_append, ih, Nat.ofDigits_cons]
    simp only [List.foldl_cons, List.foldl_nil, List.length_cons, pow_succ]
    ring

theorem read_uint_render (n : Nat) (r : List Nat) (hn : n < 4294967296)
    (hr : ∀ c, r.head? = some c → ¬ (48 ≤ c ∧ c ≤ 57)) :
    read_uint (decDigits n ++ r) = (n, r) := by
  rcases Nat.eq_zero_or_pos n with h0 | hpos
  · subst h0
    have h := read_uint_go_digits [0] 0 r (by simp) hr
    simpa [read_uint, decDigits] using h
  · have hne : n ≠ 0 := Nat.pos_iff_ne_zero.mp hpos
    have hds : ∀ d ∈ (Nat.digits 10 n).reverse, d < 10 := by
      intro d hd
      exact Nat.digits_lt_base (by norm_num) (List.mem_reverse.mp hd)
    have h := read_uint_go_digits ((Nat.digits 10 n).reverse) 0 r hds hr
    rw [read_uint, decDigits, if_neg hne, h,
      foldl_mod_eq _ 0 (by norm_num), foldl_reverse_digits]
    simp [Nat.ofDigits_digits, Nat.mod_eq_of_lt hn]

theorem inetaddr_render (a b c d : Nat) (r : List Nat)
    (ha : a < 256) (hb : b < 256) (hc : c < 256) (hd : d < 256)
    (hr : ∀ x, r.head? = some x → ¬ (48 ≤ x ∧ x ≤ 57) ∧ x ≠ 46) :
    inetaddr_host_lim_ret (renderIp4 a b c d ++ r) =
      (a * 16777216 + b * 65536 + c * 256 + d, r) := by
  have hdot : ∀ (tl : List Nat) x, (46 :: tl).head? = some x → ¬ (48 ≤ x ∧ x ≤ 57) := by
    intro tl x hx
    simp at hx
    omega
  simp only [renderIp4, inetaddr_host_lim_ret, List.append_assoc, List.cons_append]
  rw [read_uint_render a _ (by omega) (hdot _)]
  dsimp only
  rw [read_uint_render b _ (by omega) (hdot _)]
  dsimp only
  rw [read_uint_render c _ (by omega) (hdot _)]
  dsimp only
  rw [read_uint_render d _ (by omega) (fun x hx => (hr x hx).1)]
  dsimp only
  rcases hre : r with _ | ⟨x, t⟩
  · simp [Nat.mod_eq_of_lt, ha, hb, hc, hd]
  · have hx46 : x ≠ 46 := (hr x (by rw [hre]; rfl)).2
    simp [hx46, Nat.mod_eq_of_lt, ha, hb, hc, hd]

theorem decDigits_length_pos (n : Nat) : 0 < (decDigits n).length := by
  rw [decDigits]
  split
  · simp
  · rename_i h0
    simp [List.length_pos, Nat.digits_ne_nil_iff_ne_zero, h0]

/-- A well-formed PROXY v1 TCP6 line from its address tokens and ports. -/
def pxline6 (srcs dsts : List Nat) (p q : Nat) : List Nat :=
  str "PROXY TCP6 " ++ srcs ++ 32 :: dsts ++
    32 :: decDigits p ++ 32 :: decDigits q ++ [13, 10]

theorem decDigits_range (n : Nat) : ∀ c ∈ decDigits n, 48 ≤ c ∧ c ≤ 57 := by
  intro c hc
  rw [decDigits] at hc
  split at hc
  · simp at hc
    omega
  · simp at hc
    obtain ⟨d, hd, hdc⟩ := hc
    have := Nat.digits_lt_base (by norm_num) hd
    omega

theorem findCr_no13 (l : List Nat) (t : List Nat) (h : ∀ c ∈ l, c ≠ 13) :
    findCr (l ++ 13 :: t) = some (l, t) := by
  induction l with
  | nil => simp [findCr]
  | cons c l' ih =>
    have hc : c ≠ 13 := h c (by simp)
    rw [List.cons_append, findCr, if_neg hc,
      ih (fun x hx => h x (by simp [hx]))]

theorem tokTakeWhile (l : List Nat) (r : List Nat) (h : ∀ c ∈ l, c ≠ 32) :
    (l ++ 32 :: r).takeWhile (fun c => c != 32) = l := by
  induction l with
  | nil => simp [List.takeWhile]
  | cons c l' ih =>
    have hc : c ≠ 32 := h c (by simp)
    rw [List.cons_append, List.takeWhile_cons]
    simp only [hc, bne_iff_ne, ne_eq, not_false_iff, if_true]
    rw [ih (fun x hx => h x (by simp [hx]))]

theorem tokDropWhile (l : List Nat) (r : List Nat) (h : ∀ c ∈ l, c ≠ 32) :
    (l ++ 32 :: r).dropWhile (fun c => c != 32) = 32 :: r := by
  induction l with
  | nil => simp [List.dropWhile]
  | cons c l' ih =>
    have hc : c ≠ 32 := h c (by simp)
    rw [List.cons_append, List.dropWhile_cons]
    simp only [hc, bne_iff_ne, ne_eq, not_false_iff, if_true]
    exact ih (fun x hx => h x (by simp [hx]))

theorem takeWhile_ne_zero (l : List Nat) (h : ∀ c ∈ l, c ≠ 0) :
    l.takeWhile (fun b => b != 0) = l := by
  induction l with
  | nil => rfl
  | cons c l' ih =>
    have hc : c ≠ 0 := h c (by simp)
    rw [List.takeWhile_cons]
    simp only [hc, bne_iff_ne, ne_eq, not_false_iff, if_true]
    rw [ih (fun x hx => h x (by simp [hx]))]

/-- C8 (amended): with at least six bytes peeked, any prefix other than
"PROXY " fails the connection; with the "PROXY " prefix and at least 18
bytes, any family token other than "TCP4 " or "TCP6 " — in particular
"UNKNOWN" — fails the connection; on a well-formed TCP4 line the receiver
succeeds, stores the announced source and destination addresses and ports
in the connection, and consumes exactly the line's bytes whatever follows
them; and likewise on a well-formed TCP6 line whose two address tokens
`inet_pton` accepts. -/
theorem claim_C8_recv_proxy (pton6 : List Nat → Option (List Nat)) :
    (∀ buf : List Nat, 6 ≤ buf.length → buf.take 6 ≠ str "PROXY " →
      conn_recv_proxy pton6 buf = PxRes.fail) ∧
    (∀ buf : List Nat, buf.take 6 = str "PROXY " → 18 ≤ buf.length →
      (buf.drop 6).take 5 ≠ str "TCP4 " → (buf.drop 6).take 5 ≠ str "TCP6 " →
      conn_recv_proxy pton6 buf = PxRes.fail) ∧
    (∀ a b c d e f g h p q : Nat, ∀ rest : List Nat,
      a < 256 → b < 256 → c < 256 → d < 256 →
      e < 256 → f < 256 → g < 256 → h < 256 →
      p < 4294967296 → q < 4294967296 →
      conn_recv_proxy pton6 (pxline4 a b c d e f g h p q ++ rest) =
        PxRes.done (pxline4 a b c d e f g h p q).length
          (PxAddr.v4 (a * 16777216 + b * 65536 + c * 256 + d) p)
          (PxAddr.v4 (e * 16777216 + f * 65536 + g * 256 + h) q)) ∧
    (∀ srcs dsts : List Nat, ∀ p q : Nat, ∀ rest sa da : List Nat,
      (∀ c ∈ srcs, c ≠ 32 ∧ c ≠ 13 ∧ c ≠ 0) →
      (∀ c ∈ dsts, c ≠ 32 ∧ c ≠ 13 ∧ c ≠ 0) →
      p < 4294967296 → q < 4294967296 →
      pton6 srcs = some sa → pton6 dsts = some da →
      conn_recv_proxy pton6 (pxline6 srcs dsts p q ++ rest) =
        PxRes.done (pxline6 srcs dsts p q).length
          (PxAddr.v6 sa p) (PxAddr.v6 da q)) := by
  refine ⟨?_, ?_, ?_, ?_⟩
  · intro buf h6 hne
    rw [conn_recv_proxy, if_neg (by omega), if_pos hne]
  · intro buf heq h18 h4 h6
    rw [conn_recv_proxy, if_neg (by omega), if_neg (not_not_intro heq),
      if_neg (by omega), if_neg h4, if_neg h6]
  · intro a b c d e f g h p q rest ha hb hc hd he hf hg hh hp hq
    have h32 : ∀ (tl : List Nat) x, (32 :: tl).head? = some x →
        ¬ (48 ≤ x ∧ x ≤ 57) ∧ x ≠ 46 := by
      intro tl x hx
      simp at hx
      omega
    have h13 : ∀ (tl : List Nat) x, (13 :: tl).head? = some x →
        ¬ (48 ≤ x ∧ x ≤ 57) := by
      intro tl x hx
      simp at hx
      omega
    have hbuf : pxline4 a b c d e f g h p q ++ rest =
        [80, 82, 79, 88, 89, 32] ++ ([84, 67, 80, 52, 32] ++
          (renderIp4 a b c d ++ (32 :: (renderIp4 e f g h ++
            (32 :: (decDigits p ++ (32 :: (decDigits q ++
              (13 :: 10 :: rest))))))))) := by
      simp [pxline4, str, List.append_assoc]
    have htake6 : (pxline4 a b c d e f g h p q ++ rest).take 6 = str "PROXY " := by
      rw [hbuf, List.take_left' (by decide)]
      decide
    have hfam : ((pxline4 a b c d e f g h p q ++ rest).drop 6).take 5 =
        str "TCP4 " := by
      rw [hbuf, List.drop_left' (by decide), List.take_left' (by decide)]
      decide
    have hdrop11 : (pxline4 a b c d e f g h p q ++ rest).drop 11 =
        renderIp4 a b c d ++ (32 :: (renderIp4 e f g h ++
          (32 :: (decDigits p ++ (32 :: (decDigits q ++
            (13 :: 10 :: rest))))))) := by
      rw [hbuf, ← List.append_assoc, List.drop_left' (by decide)]
    have hlen : 18 ≤ (pxline4 a b c d e f g h p q ++ rest).length := by
      rw [hbuf]
      have l1 := decDigits_length_pos a
      have l2 := decDigits_length_pos b
      have l3 := decDigits_length_pos c
      have l4 := decDigits_length_pos d
      simp [renderIp4, List.length_append]
      omega
    rw [conn_recv_proxy, if_neg (by omega), if_neg (not_not_intro htake6),
      if_neg (by omega), if_pos hfam, hdrop11]
    rw [tcp4Branch]
    rw [inetaddr_render a b c d _ ha hb hc hd (h32 _)]
    dsimp only
    rw [if_neg (by simp)]
    rw [inetaddr_render e f g h _ he hf hg hh (h32 _)]
    dsimp only
    rw [if_neg (by simp)]
    rw [read_uint_render p _ hp (fun x hx => (h32 _ x hx).1)]
    dsimp only
    rw [if_neg (by simp)]
    rw [read_uint_render q _ hq (h13 _)]
    dsimp only
    rw [if_neg (by simp), if_neg (by simp)]
    simp [List.length_append]
  · intro srcs dsts p q rest sa da hs hd hp hq hsa hda
    have hs32 : ∀ c ∈ srcs, c ≠ 32 := fun c hc => (hs c hc).1
    have hd32 : ∀ c ∈ dsts, c ≠ 32 := fun c hc => (hd c hc).1
    have hdp := decDigits_range p
    have hdq := decDigits_range q
    have hp32 : ∀ c ∈ decDigits p, c ≠ 32 := by
      intro c hc
      have := hdp c hc
      omega
    have hq32 : ∀ c ∈ decDigits q, c ≠ 32 := by
      intro c hc
      have := hdq c hc
      omega
    have hbuf : pxline6 srcs dsts p q ++ rest =
        [80, 82, 79, 88, 89, 32] ++ ([84, 67, 80, 54, 32] ++
          ((srcs ++ (32 :: (dsts ++ (32 :: (decDigits p ++ (32 :: decDigits q)))))) ++
            (13 :: 10 :: rest))) := by
      simp [pxline6, str, List.append_assoc]
    have htake6 : (pxline6 srcs dsts p q ++ rest).take 6 = str "PROXY " := by
      rw [hbuf, List.take_left' (by decide)]
      decide
    have hfam6 : ((pxline6 srcs dsts p q ++ rest).drop 6).take 5 = str "TCP6 " := by
      rw [hbuf, List.drop_left' (by decide), List.take_left' (by decide)]
      decide
    have hfam4 : ((pxline6 srcs dsts p q ++ rest).drop 6).take 5 ≠ str "TCP4 " := by
      rw [hfam6]
      decide
    have hdrop11 : (pxline6 srcs dsts p q ++ rest).drop 11 =
        (srcs ++ (32 :: (dsts ++ (32 :: (decDigits p ++ (32 :: decDigits q)))))) ++
          (13 :: 10 :: rest) := by
      rw [hbuf, ← List.append_assoc, List.drop_left' (by decide)]
    have hlen : 18 ≤ (pxline6 srcs dsts p q ++ rest).length := by
      rw [hbuf]
      have l1 := decDigits_length_pos p
      have l2 := decDigits_length_pos q
      simp [List.length_append]
      omega
    have hpre13 : ∀ c ∈ srcs ++ (32 :: (dsts ++ (32 :: (decDigits p ++
        (32 :: decDigits q))))), c ≠ 13 := by
      intro c hc
      simp at hc
      rcases hc with hc | rfl | hc | rfl | hc | rfl | hc
      · exact (hs c hc).2.1
      · omega
      · exact (hd c hc).2.1
      · omega
      · have := hdp c hc
        omega
      · omega
      · have := hdq c hc
        omega
    have hfind : findCr ((srcs ++ (32 :: (dsts ++ (32 :: (decDigits p ++
        (32 :: decDigits q)))))) ++ (13 :: 10 :: rest)) =
        some (srcs ++ (32 :: (dsts ++ (32 :: (decDigits p ++ (32 :: decDigits q))))),
          10 :: rest) :=
      findCr_no13 _ _ hpre13
    have hsplit : split3 (srcs ++ (32 :: (dsts ++ (32 :: (decDigits p ++
        (32 :: decDigits q)))))) = some (srcs, dsts, decDigits p, decDigits q) := by
      rw [split3]
      rw [tokTakeWhile _ _ hs32, tokDropWhile _ _ hs32]
      simp only
      rw [tokTakeWhile _ _ hd32, tokDropWhile _ _ hd32]
      simp only
      rw [tokTakeWhile _ _ hp32, tokDropWhile _ _ hp32]
    have hnodig : ∀ c : Nat, (List.nil : List Nat).head? = some c →
        ¬ (48 ≤ c ∧ c ≤ 57) := by
      intro c hc
      simp at hc
    have hredp : read_uint (decDigits p) = (p, []) := by
      have := read_uint_render p [] hp hnodig
      simpa using this
    have hredq : read_uint (decDigits q) = (q, []) := by
      have := read_uint_render q [] hq hnodig
      simpa using this
    have htw1 : srcs.takeWhile (fun b => b != 0) = srcs :=
      takeWhile_ne_zero srcs (fun c hc => (hs c hc).2.2)
    have htw2 : dsts.takeWhile (fun b => b != 0) = dsts :=
      takeWhile_ne_zero dsts (fun c hc => (hd c hc).2.2)
    rw [conn_recv_proxy, if_neg (by omega), if_neg (not_not_intro htake6),
      if_neg (by omega), if_neg hfam4, if_pos hfam6, hdrop11]
    rw [tcp6Branch, hfind]
    dsimp only
    rw [if_neg (by simp)]
    rw [hsplit]
    dsimp only
    rw [hredp]
    dsimp only
    rw [if_neg (by simp)]
    rw [hredq]
    dsimp only
    rw [if_neg (by simp)]
    rw [htw1, hsa]
    dsimp only
    rw [htw2, hda]
    dsimp only
    simp [List.length_append]


/-- Counterexample to C8 as stated: a complete, well-formed PROXY v1 line
with family `UNKNOWN` (followed by an HTTP request) starts with "PROXY "
yet the receiver fails the connection instead of proceeding. -/
theorem claim_C8_counterexample :
    (str "PROXY UNKNOWN\r\nGET / HTTP/1.0\r\n\r\n").take 15 =
        str "PROXY UNKNOWN\r\n" ∧
    conn_recv_proxy (fun _ => none)
      (str "PROXY UNKNOWN\r\nGET / HTTP/1.0\r\n\r\n") = PxRes.fail := by
  decide

theorem claim_C8_witness :
    (conn_recv_proxy (fun _ => none)
      (pxline4 1 2 3 4 5 6 7 8 1111 2222 ++ str "GET / HTTP/1.0\r\n\r\n") =
      PxRes.done (pxline4 1 2 3 4 5 6 7 8 1111 2222).length
        (PxAddr.v4 (1 * 16777216 + 2 * 65536 + 3 * 256 + 4) 1111)
        (PxAddr.v4 (5 * 16777216 + 6 * 65536 + 7 * 256 + 8) 2222)) ∧
    (conn_recv_proxy some
      (pxline6 (str "::1") (str "fe80::2") 3333 4444 ++ str "GET / HTTP/1.0\r\n\r\n") =
      PxRes.done (pxline6 (str "::1") (str "fe80::2") 3333 4444).length
        (PxAddr.v6 (str "::1") 3333) (PxAddr.v6 (str "fe80::2") 4444)) :=
  ⟨(claim_C8_recv_proxy (fun _ => none)).2.2.1 1 2 3 4 5 6 7 8 1111 2222
    (str "GET / HTTP/1.0\r\n\r\n")
    (by norm_num) (by norm_num) (by norm_num) (by norm_num)
    (by norm_num) (by norm_num) (by norm_num) (by norm_num)
    (by norm_num) (by norm_num),
   (claim_C8_recv_proxy some).2.2.2 (str "::1") (str "fe80::2") 3333 4444
    (str "GET / HTTP/1.0\r\n\r\n") (str "::1") (str "fe80::2")
    (by decide) (by decide) (by norm_num) (by norm_num) rfl rfl⟩

/-! ## HTTP message parser resumability (src: proto_http.c, `http_msg_analyzer`,
`http_parse_reqline`, `http_parse_stsline`) -/

/-- The parser states of `http_msg_analyzer` (enum `HTTP_MSG_*`), with `BODY`
as the terminal success state it leaves the headers phase in. -/
inductive HState
  | RPBEFORE | RPBEFORE_CR | RPVER | RPVER_SP | RPCODE | RPCODE_SP | RPREASON
  | RPLINE_END
  | RQBEFORE | RQBEFORE_CR | RQMETH | RQMETH_SP | RQURI | RQURI_SP | RQVER
  | RQLINE_END
  | HDR_FIRST | HDR_NAME | HDR_L1_SP | HDR_L1_LF | HDR_L1_LWS | HDR_VAL
  | HDR_L2_LF | HDR_L2_LWS | LAST_LF
  | ERROR | BODY
deriving DecidableEq

/-- Modelled from the spec: the header index `hdr_idx` — slot zero holds the
start line (length and CR flag), the chained slots hold one header line each
in order, and adding fails when the fixed-size table is full. -/
structure C2Idx where
  cap : Nat
  start : Int × Bool
  entries : List (Int × Bool)
deriving DecidableEq

/-- Modelled from the spec: `hdr_idx_init` empties the index. -/
def hdr_idx_init (i : C2Idx) : C2Idx := { i with start := (0, false), entries := [] }

/-- Modelled from the spec: `hdr_idx_set_start` records the start line's
length and CR flag in slot zero. -/
def hdr_idx_set_start (i : C2Idx) (l : Int) (cr : Bool) : C2Idx :=
  { i with start := (l, cr) }

/-- Modelled from the spec: `hdr_idx_add` appends one header line after the
tail, failing (the source's negative return) when the table is full. -/
def hdr_idx_add (i : C2Idx) (l : Int) (cr : Bool) : Option C2Idx :=
  if i.entries.length < i.cap then some { i with entries := i.entries ++ [(l, cr)] }
  else none

/-- The parser's full persistent state: the message's saved state and `next`
offset, the buffer bytes (`buf->p[0..i)`, with `buf->o = 0` and offsets
relative to `buf->p`), the `http_msg` offset fields the FSM reads and
writes, and the header index. -/
structure MSt where
  st : HState
  next : Nat
  data : List Nat
  sol : Nat
  sov : Nat
  eol : Nat
  eoh : Nat
  err_pos : Int
  rq_l : Nat
  rq_m_l : Nat
  rq_u : Nat
  rq_u_l : Nat
  rq_v : Nat
  rq_v_l : Nat
  stt_l : Nat
  stt_v_l : Nat
  stt_c : Nat
  stt_c_l : Nat
  stt_r : Nat
  stt_r_l : Nat
  idx : C2Idx
deriving DecidableEq

/-- One FSM label visit either continues the loop at another label (`more`,
re-checking for data) or makes the function return at once (`halt`). -/
inductive AStep
  | more (s : MSt)
  | halt (s : MSt)
deriving DecidableEq

/-- Overwrite bytes `i..j-1` with spaces (the LWS rewriting loops). -/
def spacify : List Nat → Nat → Nat → List Nat
  | [], _, _ => []
  | c :: t, i, j =>
    match j with
    | 0 => c :: t
    | j' + 1 =>
      match i with
      | 0 => 32 :: spacify t 0 j'
      | i' + 1 => c :: spacify t i' j'

/-- Code shared at `http_msg_rqline_eol`/`http_msg_rpline_eol` after the
start line is complete (`l` already computed): register the start line in
the index, point `sol` at the CR or LF, and eat the CR if that is what
terminated the line. -/
def lineEnd (s : MSt) (l : Nat) (tgt : HState) : AStep :=
  let c := s.data.getD s.next 0
  let s1 := { s with idx := hdr_idx_set_start s.idx (l : Int) (c = 13), sol := s.next }
  if c = 13 then .more { s1 with st := tgt, next := s.next + 1 }
  else .more { s1 with st := tgt }

/-- The `http_msg_complete_header` tail: index the finished header line (its
end-of-line byte tells how it ends), fail on a full index, then start the
next header or reach the final empty line. -/
def completeHeader (s : MSt) : AStep :=
  match hdr_idx_add s.idx ((s.eol : Int) - (s.sol : Int)) (s.data.getD s.eol 0 = 13) with
  | none => .halt { s with st := .ERROR }
  | some idx' =>
    let c := s.data.getD s.next 0
    let s1 := { s with idx := idx', sol := s.next }
    if ¬ http_is_crlf c then .more { s1 with st := .HDR_NAME }
    else if c = 13 then .more { s1 with st := .LAST_LF, next := s.next + 1 }
    else .more { s1 with st := .LAST_LF }

/-- One label visit of `http_msg_analyzer` (with `http_parse_stsline` and
`http_parse_reqline` inlined state by state, as the source's macros do):
reads only the byte at `next` (plus the already-scanned byte at `eol` when
closing a header), assumes `next < data.length`, and either continues
(`more`) or returns (`halt`). Out-of-data saves are represented by `more`
into a state whose `next` has reached the end of the buffer. -/
def step1 (s : MSt) : AStep :=
  let pos := s.next
  let c := s.data.getD pos 0
  match s.st with
  | .RPBEFORE =>
    if http_is_token c then
      let s1 := if pos ≠ 0 then { s with data := s.data.drop pos, next := 0 } else s
      .more { s1 with st := .RPVER, sol := 0, stt_l := 0, idx := hdr_idx_init s1.idx }
    else if ¬ http_is_crlf c then .halt { s with st := .ERROR }
    else if c = 10 then .more { s with st := .RPBEFORE, next := pos + 1 }
    else .more { s with st := .RPBEFORE_CR, next := pos + 1 }
  | .RPBEFORE_CR =>
    if c ≠ 10 then .halt { s with st := .ERROR }
    else .more { s with st := .RPBEFORE, next := pos + 1 }
  | .RPVER =>
    if http_is_ver_token c then .more { s with st := .RPVER, next := pos + 1 }
    else if http_is_spht c then
      .more { s with stt_v_l := pos, st := .RPVER_SP, next := pos + 1 }
    else .halt { s with st := .ERROR }
  | .RPVER_SP =>
    if ¬ http_is_lws c then .more { s with stt_c := pos, st := .RPCODE }
    else if http_is_spht c then .more { s with st := .RPVER_SP, next := pos + 1 }
    else .halt { s with st := .ERROR }
  | .RPCODE =>
    if ¬ http_is_lws c then .more { s with st := .RPCODE, next := pos + 1 }
    else if http_is_spht c then
      .more { s with stt_c_l := pos - s.stt_c, st := .RPCODE_SP, next := pos + 1 }
    else
      let s1 := { s with stt_c_l := pos - s.stt_c, stt_r := pos, stt_r_l := 0,
                         stt_l := pos - s.sol }
      lineEnd s1 s1.stt_l .RPLINE_END
  | .RPCODE_SP =>
    if ¬ http_is_lws c then .more { s with stt_r := pos, st := .RPREASON }
    else if http_is_spht c then .more { s with st := .RPCODE_SP, next := pos + 1 }
    else
      let s1 := { s with stt_r := pos, stt_r_l := 0, stt_l := pos - s.sol }
      lineEnd s1 s1.stt_l .RPLINE_END
  | .RPREASON =>
    if ¬ http_is_crlf c then .more { s with st := .RPREASON, next := pos + 1 }
    else
      let s1 := { s with stt_r_l := pos - s.stt_r, stt_l := pos - s.sol }
      lineEnd s1 s1.stt_l .RPLINE_END
  | .RPLINE_END =>
    if c ≠ 10 then .halt { s with st := .ERROR }
    else .more { s with st := .HDR_FIRST, next := pos + 1 }
  | .RQBEFORE =>
    if http_is_token c then
      let s1 := if pos ≠ 0 then { s with data := s.data.drop pos, next := 0 } else s
      .more { s1 with st := .RQMETH, sol := 0, rq_l := 0 }
    else if ¬ http_is_crlf c then .halt { s with st := .ERROR }
    else if c = 10 then .more { s with st := .RQBEFORE, next := pos + 1 }
    else .more { s with st := .RQBEFORE_CR, next := pos + 1 }
  | .RQBEFORE_CR =>
    if c ≠ 10 then .halt { s with st := .ERROR }
    else .more { s with st := .RQBEFORE, next := pos + 1 }
  | .RQMETH =>
    if http_is_token c then .more { s with st := .RQMETH, next := pos + 1 }
    else if http_is_spht c then
      .more { s with rq_m_l := pos, st := .RQMETH_SP, next := pos + 1 }
    else if http_is_crlf c then
      let s1 := { s with rq_m_l := pos, rq_u := pos, rq_u_l := 0, rq_v := pos,
                         rq_v_l := 0, rq_l := pos - s.sol }
      lineEnd s1 s1.rq_l .RQLINE_END
    else .halt { s with st := .ERROR }
  | .RQMETH_SP =>
    if ¬ http_is_lws c then .more { s with rq_u := pos, st := .RQURI }
    else if http_is_spht c then .more { s with st := .RQMETH_SP, next := pos + 1 }
    else
      let s1 := { s with rq_u := pos, rq_u_l := 0, rq_v := pos, rq_v_l := 0,
                         rq_l := pos - s.sol }
      lineEnd s1 s1.rq_l .RQLINE_END
  | .RQURI =>
    if 33 ≤ c ∧ c ≤ 126 then .more { s with st := .RQURI, next := pos + 1 }
    else if http_is_spht c then
      .more { s with rq_u_l := pos - s.rq_u, st := .RQURI_SP, next := pos + 1 }
    else if 128 ≤ c then
      if s.err_pos < -1 then .halt { s with err_pos := (pos : Int), st := .ERROR }
      else if s.err_pos = -1 then
        .more { s with err_pos := (pos : Int), st := .RQURI, next := pos + 1 }
      else .more { s with st := .RQURI, next := pos + 1 }
    else if http_is_crlf c then
      let s1 := { s with rq_u_l := pos - s.rq_u, rq_v := pos, rq_v_l := 0,
                         rq_l := pos - s.sol }
      lineEnd s1 s1.rq_l .RQLINE_END
    else .halt { s with err_pos := (pos : Int), st := .ERROR }
  | .RQURI_SP =>
    if ¬ http_is_lws c then .more { s with rq_v := pos, st := .RQVER }
    else if http_is_spht c then .more { s with st := .RQURI_SP, next := pos + 1 }
    else
      let s1 := { s with rq_v := pos, rq_v_l := 0, rq_l := pos - s.sol }
      lineEnd s1 s1.rq_l .RQLINE_END
  | .RQVER =>
    if http_is_ver_token c then .more { s with st := .RQVER, next := pos + 1 }
    else if http_is_crlf c then
      let s1 := { s with rq_v_l := pos - s.rq_v, rq_l := pos - s.sol }
      lineEnd s1 s1.rq_l .RQLINE_END
    else .halt { s with st := .ERROR }
  | .RQLINE_END =>
    if s.rq_v_l = 0 then .more { s with st := .LAST_LF }
    else if c ≠ 10 then .halt { s with st := .ERROR }
    else .more { s with st := .HDR_FIRST, next := pos + 1 }
  | .HDR_FIRST =>
    let s1 := { s with sol := pos }
    if ¬ http_is_crlf c then .more { s1 with st := .HDR_NAME }
    else if c = 13 then .more { s1 with st := .LAST_LF, next := pos + 1 }
    else .more { s1 with st := .LAST_LF }
  | .HDR_NAME =>
    if http_is_token c then .more { s with st := .HDR_NAME, next := pos + 1 }
    else if c = 58 then .more { s with st := .HDR_L1_SP, next := pos + 1 }
    else if s.err_pos < -1 ∨ c = 10 then .halt { s with st := .ERROR }
    else if s.err_pos = -1 then
      .more { s with err_pos := (pos : Int), st := .HDR_NAME, next := pos + 1 }
    else .more { s with st := .HDR_NAME, next := pos + 1 }
  | .HDR_L1_SP =>
    if http_is_spht c then .more { s with st := .HDR_L1_SP, next := pos + 1 }
    else
      let s1 := { s with sov := pos }
      if ¬ http_is_crlf c then .more { s1 with st := .HDR_VAL }
      else if c = 13 then .more { s1 with st := .HDR_L1_LF, next := pos + 1 }
      else .more { s1 with st := .HDR_L1_LF }
  | .HDR_L1_LF =>
    if c ≠ 10 then .halt { s with st := .ERROR }
    else .more { s with st := .HDR_L1_LWS, next := pos + 1 }
  | .HDR_L1_LWS =>
    if http_is_spht c then
      .more { s with data := spacify s.data s.sov pos, sov := max s.sov pos,
                     st := .HDR_L1_SP, next := pos + 1 }
    else completeHeader { s with eol := s.sov }
  | .HDR_VAL =>
    if ¬ http_is_crlf c then .more { s with st := .HDR_VAL, next := pos + 1 }
    else
      let s1 := { s with eol := pos }
      if c = 13 then .more { s1 with st := .HDR_L2_LF, next := pos + 1 }
      else .more { s1 with st := .HDR_L2_LF }
  | .HDR_L2_LF =>
    if c ≠ 10 then .halt { s with st := .ERROR }
    else .more { s with st := .HDR_L2_LWS, next := pos + 1 }
  | .HDR_L2_LWS =>
    if http_is_spht c then
      .more { s with data := spacify s.data s.eol pos, eol := max s.eol pos,
                     st := .HDR_VAL, next := pos + 1 }
    else completeHeader s
  | .LAST_LF =>
    if c ≠ 10 then .halt { s with st := .ERROR }
    else .halt { s with next := pos + 1, sov := pos + 1, eoh := s.sol, sol := 0,
                        st := .BODY }
  | .ERROR => .halt s
  | .BODY => .halt s

/-- Rank of a state among the no-eat `goto` chains: every label-to-label
jump that does not consume a byte strictly decreases it. -/
def rank : HState → Nat
  | .RPBEFORE | .RQBEFORE => 9
  | .RPVER_SP | .RPCODE_SP | .RQMETH_SP | .RQURI_SP
  | .HDR_FIRST | .HDR_L1_SP | .HDR_L1_LWS | .HDR_L2_LWS => 8
  | .RPVER | .RPCODE | .RPREASON | .RQMETH | .RQURI | .RQVER
  | .HDR_NAME | .HDR_VAL => 7
  | .RPLINE_END | .HDR_L1_LF | .HDR_L2_LF => 6
  | .RQLINE_END => 3
  | .LAST_LF => 2
  | _ => 0

/-- Combined termination measure: unread bytes dominate, rank breaks ties. -/
def meas (s : MSt) : Nat := (s.data.length - s.next) * 16 + rank s.st

theorem spacify_length (d : List Nat) : ∀ i j, (spacify d i j).length = d.length := by
  induction d with
  | nil => intro i j; rfl
  | cons c t ih =>
    intro i j
    match j with
    | 0 => rfl
    | j' + 1 =>
      match i with
      | 0 => simp [spacify, ih]
      | i' + 1 => simp [spacify, ih]

theorem rank_lt_16 (st : HState) : rank st < 16 := by
  cases st <;> simp [rank]

theorem step1_more_meas (s t : MSt) (hlt : s.next < s.data.length)
    (h : step1 s = .more t) : meas t < meas s := by
  have h16 := rank_lt_16 t.st
  rcases s with ⟨st, nx, data, sol, sov, eol, eoh, ep, f1, f2, f3, f4, f5, f6,
    g1, g2, g3, g4, g5, g6, idx⟩
  dsimp at hlt
  cases st <;>
    simp only [step1, lineEnd, completeHeader] at h <;>
    (try split_ifs at h) <;>
    (try split at h) <;>
    (try split_ifs at h) <;>
    cases h <;>
    simp_all [meas, rank, spacify_length] <;>
    omega

/-- One invocation of `http_msg_analyzer`: loop the FSM until it either
returns or runs out of data (`next` reaching the end of the buffer; the
out-of-data exit stores the current state and `next`, which are already the
fields of the model state). -/
def http_msg_analyzer (s : MSt) : MSt :=
  if hlt : s.next < s.data.length then
    match hstep : step1 s with
    | .halt t => t
    | .more t => http_msg_analyzer t
  else s
termination_by meas s
decreasing_by exact step1_more_meas s t hlt hstep

/-- More bytes arriving in the buffer. -/
def extendMsg (s : MSt) (ext : List Nat) : MSt := { s with data := s.data ++ ext }

/-- One segment arriving and the analyzer being called on it. -/
def feedSeg (s : MSt) (seg : List Nat) : MSt := http_msg_analyzer (extendMsg s seg)

theorem spacify_append (d : List Nat) :
    ∀ e i j, j ≤ d.length → spacify (d ++ e) i j = spacify d i j ++ e := by
  induction d with
  | nil =>
    intro e i j hj
    have hj0 : j = 0 := by simpa using hj
    subst hj0
    cases e <;> simp [spacify]
  | cons c t ih =>
    intro e i j hj
    match j with
    | 0 => simp [spacify]
    | j' + 1 =>
      match i with
      | 0 => simp [spacify, ih e 0 j' (by simpa using hj)]
      | i' + 1 => simp [spacify, ih e i' j' (by simpa using hj)]

/-- Appending bytes inside either outcome. -/
def AStep.extendA : AStep → List Nat → AStep
  | .more s, e => .more (extendMsg s e)
  | .halt s, e => .halt (extendMsg s e)

set_option maxHeartbeats 1000000 in
theorem step1_extend (s : MSt) (ext : List Nat) (hlt : s.next < s.data.length)
    (h1 : s.st = .HDR_L1_LWS → s.sov ≤ s.next)
    (h2 : s.st = .HDR_L2_LWS → s.eol ≤ s.next) :
    step1 (extendMsg s ext) = (step1 s).extendA ext := by
  rcases s with ⟨st, nx, data, sol, sov, eol, eoh, ep, f1, f2, f3, f4, f5, f6,
    g1, g2, g3, g4, g5, g6, idx⟩
  dsimp at hlt h1 h2
  have hgd : (data ++ ext).getD nx 0 = data.getD nx 0 := List.getD_append _ _ _ _ hlt
  cases st <;>
    simp only [step1, extendMsg, lineEnd, completeHeader, hgd] <;>
    (try simp only [List.drop_append_of_le_length (le_of_lt hlt)]) <;>
    (try simp only [spacify_append _ _ _ _ (le_of_lt hlt)]) <;>
    (try simp only [List.getD_append _ _ _ _ (lt_of_le_of_lt (h1 rfl) hlt)]) <;>
    (try simp only [List.getD_append _ _ _ _ (lt_of_le_of_lt (h2 rfl) hlt)]) <;>
    (try split_ifs) <;>
    (try split) <;>
    simp_all [AStep.extendA, extendMsg]

/-- The technical well-formedness the header-closing states maintain: the
value-start and end-of-line offsets a header-line state carries never point
beyond the parse position. -/
def Inv (s : MSt) : Prop :=
  ((s.st = .HDR_L1_LF ∨ s.st = .HDR_L1_LWS) → s.sov ≤ s.next) ∧
  ((s.st = .HDR_L2_LF ∨ s.st = .HDR_L2_LWS) → s.eol ≤ s.next)

instance (s : MSt) : Decidable (Inv s) := by
  unfold Inv
  infer_instance

/-- `Inv` through either outcome of a step. -/
def InvA : AStep → Prop
  | .more t => Inv t
  | .halt t => Inv t

theorem step1_inv (s : MSt) (hInv : Inv s) : InvA (step1 s) := by
  obtain ⟨i1, i2⟩ := hInv
  rcases s with ⟨st, nx, data, sol, sov, eol, eoh, ep, f1, f2, f3, f4, f5, f6,
    g1, g2, g3, g4, g5, g6, idx⟩
  dsimp at i1 i2
  cases st <;>
    simp only [step1, lineEnd, completeHeader] <;>
    (try split_ifs) <;>
    (try split) <;>
    simp_all [InvA, Inv] <;>
    omega

theorem step1_halt_state (s t : MSt) (h : step1 s = .halt t) :
    t.st = .ERROR ∨ t.st = .BODY := by
  rcases s with ⟨st, nx, data, sol, sov, eol, eoh, ep, f1, f2, f3, f4, f5, f6,
    g1, g2, g3, g4, g5, g6, idx⟩
  cases st <;>
    simp only [step1, lineEnd, completeHeader] at h <;>
    (try split_ifs at h) <;>
    (try split at h) <;>
    cases h <;>
    simp_all

theorem analyzer_stop (s : MSt) (h : ¬ s.next < s.data.length) :
    http_msg_analyzer s = s := by
  rw [http_msg_analyzer, dif_neg h]

theorem analyzer_halt (s t : MSt) (hlt : s.next < s.data.length)
    (h : step1 s = .halt t) : http_msg_analyzer s = t := by
  rw [http_msg_analyzer, dif_pos hlt]
  split
  · rename_i u heq
    rw [h] at heq
    cases heq
    rfl
  · rename_i u heq
    rw [h] at heq
    cases heq

theorem analyzer_more (s t : MSt) (hlt : s.next < s.data.length)
    (h : step1 s = .more t) : http_msg_analyzer s = http_msg_analyzer t := by
  rw [http_msg_analyzer, dif_pos hlt]
  split
  · rename_i u heq
    rw [h] at heq
    cases heq
  · rename_i u heq
    rw [h] at heq
    cases heq
    rfl

theorem analyzer_terminal (s : MSt) (h : s.st = .ERROR ∨ s.st = .BODY) :
    http_msg_analyzer s = s := by
  by_cases hlt : s.next < s.data.length
  · have hstep : step1 s = .halt s := by
      rcases s with ⟨st, nx, data, sol, sov, eol, eoh, ep, f1, f2, f3, f4, f5, f6,
        g1, g2, g3, g4, g5, g6, idx⟩
      rcases h with h | h <;> simp_all [step1]
    exact analyzer_halt s s hlt hstep
  · exact analyzer_stop s hlt

theorem extendMsg_inv (s : MSt) (ext : List Nat) (h : Inv s) : Inv (extendMsg s ext) := by
  simpa [Inv, extendMsg] using h

theorem extendMsg_lt (s : MSt) (ext : List Nat) (h : s.next < s.data.length) :
    (extendMsg s ext).next < (extendMsg s ext).data.length := by
  simp [extendMsg]
  omega

theorem analyzer_inv (s : MSt) (hInv : Inv s) : Inv (http_msg_analyzer s) := by
  by_cases hlt : s.next < s.data.length
  · cases hstep : step1 s with
    | halt t =>
      rw [analyzer_halt s t hlt hstep]
      have := step1_inv s hInv
      rw [hstep] at this
      exact this
    | more t =>
      rw [analyzer_more s t hlt hstep]
      have hi : Inv t := by
        have := step1_inv s hInv
        rw [hstep] at this
        exact this
      exact analyzer_inv t hi
  · rw [analyzer_stop s hlt]
    exact hInv
termination_by meas s
decreasing_by exact step1_more_meas s t hlt hstep

theorem analyzer_extend (s : MSt) (hInv : Inv s) (ext : List Nat) :
    http_msg_analyzer (extendMsg (http_msg_analyzer s) ext) =
      http_msg_analyzer (extendMsg s ext) := by
  by_cases hlt : s.next < s.data.length
  · cases hstep : step1 s with
    | halt t =>
      have hterm := step1_halt_state s t hstep
      have hlt' := extendMsg_lt s ext hlt
      have hstep' : step1 (extendMsg s ext) = .halt (extendMsg t ext) := by
        rw [step1_extend s ext hlt (fun h => hInv.1 (Or.inr h))
          (fun h => hInv.2 (Or.inr h)), hstep]
        rfl
      rw [analyzer_halt s t hlt hstep, analyzer_halt _ _ hlt' hstep']
      exact analyzer_terminal _ (by simpa [extendMsg] using hterm)
    | more t =>
      have hInvt : Inv t := by
        have := step1_inv s hInv
        rw [hstep] at this
        exact this
      have hlt' := extendMsg_lt s ext hlt
      have hstep' : step1 (extendMsg s ext) = .more (extendMsg t ext) := by
        rw [step1_extend s ext hlt (fun h => hInv.1 (Or.inr h))
          (fun h => hInv.2 (Or.inr h)), hstep]
        rfl
      rw [analyzer_more s t hlt hstep, analyzer_more _ _ hlt' hstep']
      exact analyzer_extend t hInvt ext
  · rw [analyzer_stop s hlt]
termination_by meas s
decreasing_by exact step1_more_meas s t hlt hstep

theorem extendMsg_extendMsg (s : MSt) (a b : List Nat) :
    extendMsg (extendMsg s a) b = extendMsg s (a ++ b) := by
  simp [extendMsg]

theorem analyzer_resume (segs : List (List Nat)) : ∀ s, Inv s →
    segs.foldl feedSeg (http_msg_analyzer s) =
      http_msg_analyzer (extendMsg s segs.flatten) := by
  induction segs with
  | nil =>
    intro s hInv
    simp [extendMsg]
  | cons a t ih =>
    intro s hInv
    rw [List.foldl_cons,
      show feedSeg (http_msg_analyzer s) a = http_msg_analyzer (extendMsg s a) from by
        rw [feedSeg, analyzer_extend s hInv a],
      ih (extendMsg s a) (extendMsg_inv s a hInv), extendMsg_extendMsg]
    simp

/-- C2: parser resumability. Feeding the analyzer the byte stream one
segment at a time — each call resuming from the message's saved state and
`next` offset, which the analyzer writes back whenever it runs out of
data — ends in exactly the same parser state (message state, `next` offset,
offset fields and header index alike) as one call on the whole stream. The
hypothesis is the well-formedness the header-line states maintain (it holds
of any initial `*BEFORE` state). -/
theorem claim_C2_resumable (s : MSt) (segs : List (List Nat)) (h : Inv s) :
    segs.foldl feedSeg (http_msg_analyzer s) =
      http_msg_analyzer (extendMsg s segs.flatten) :=
  analyzer_resume segs s h

/-- A fresh request-parsing state with an empty buffer. -/
def c2s0 : MSt where
  st := .RQBEFORE
  next := 0
  data := []
  sol := 0
  sov := 0
  eol := 0
  eoh := 0
  err_pos := -1
  rq_l := 0
  rq_m_l := 0
  rq_u := 0
  rq_u_l := 0
  rq_v := 0
  rq_v_l := 0
  stt_l := 0
  stt_v_l := 0
  stt_c := 0
  stt_c_l := 0
  stt_r := 0
  stt_r_l := 0
  idx := ⟨8, (0, false), []⟩

theorem claim_C2_witness :
    Inv c2s0 ∧
    ([[71, 69, 84, 32, 47, 32, 72, 84], [84, 80, 47, 49, 46, 48, 13, 10, 13, 10]].foldl
        feedSeg (http_msg_analyzer c2s0) =
      http_msg_analyzer (extendMsg c2s0
        [[71, 69, 84, 32, 47, 32, 72, 84], [84, 80, 47, 49, 46, 48, 13, 10, 13, 10]].flatten)) :=
  ⟨by decide,
   claim_C2_resumable c2s0
     [[71, 69, 84, 32, 47, 32, 72, 84], [84, 80, 47, 49, 46, 48, 13, 10, 13, 10]]
     (by decide)⟩


end Haproxy
